import Mathlib

/-!
Verification of the OnlyAppeals comparable-evidence pipeline.

Shallow embedding of the TypeScript server (`server.tool` handlers and
helper functions).  JavaScript numbers are modelled as rationals (ℚ),
strings as Lean `String`/`List Char`, missing object fields as `Option`,
and the tool results as explicit success/error sums.  Time-dependent
inputs (`Date.now()`, the filing-window clock) and the transcendental
haversine distance are passed in as explicit parameters.
-/

namespace OnlyAppeals

/-- Strength tier returned by `calculateCaseStrength`. -/
inductive Strength where
  | weak
  | medium
  | strong
deriving DecidableEq, Repr

/-- Rendering of a strength tier, as interpolated into output strings. -/
def Strength.str : Strength → String
  | .weak => "weak"
  | .medium => "medium"
  | .strong => "strong"

/-- Embedding of `calculateCaseStrength(assessedValue, estimatedMarketValue)`:
`gap = ((assessedValue - estimatedMarketValue) / assessedValue) * 100`,
`gap >= 15 → strong`, `gap >= 5 → medium`, otherwise `weak`. -/
def calculateCaseStrength (assessedValue estimatedMarketValue : ℚ) : Strength :=
  let gap := (assessedValue - estimatedMarketValue) / assessedValue * 100
  if 15 ≤ gap then .strong
  else if 5 ≤ gap then .medium
  else .weak

/-- The gap percentage used by the scorer. -/
def gapPercent (assessedValue estimatedMarketValue : ℚ) : ℚ :=
  (assessedValue - estimatedMarketValue) / assessedValue * 100

/-- Embedding of the radius ladder built by `find-comps`:
`const radiiToTry = [radius]; if (radius < 0.75) radiiToTry.push(0.75); ...`
up to the 2.0-mile push. -/
def radiiToTry (radius : ℚ) : List ℚ :=
  [radius]
    ++ (if radius < 0.75 then [0.75] else [])
    ++ (if radius < 1 then [1] else [])
    ++ (if radius < 1.5 then [1.5] else [])
    ++ (if radius < 2 then [2] else [])

/-- Embedding of the `for (const r of radiiToTry)` loop of `find-comps`:
`query` abstracts the record source, returning the number of records the
`within_circle` query yields at a given radius; the loop updates
`usedRadius = r` on every iteration and breaks at the first radius whose
query returns at least one record. -/
def searchLadder (query : ℚ → ℕ) : List ℚ → ℚ → ℚ
  | [], used => used
  | r :: rest, _ => if 0 < query r then r else searchLadder query rest r

/-- The `usedRadius` that `find-comps` ends up reporting for a given
requested radius and record-source behaviour. -/
def effectiveRadius (query : ℚ → ℕ) (radius : ℚ) : ℚ :=
  searchLadder query (radiiToTry radius) radius

/-- Decimal rendering of a natural number, as JavaScript string
interpolation does; fuel-structured so that the kernel can evaluate it. -/
def natToStrAux : Nat → Nat → List Char
  | 0, _ => []
  | fuel+1, n => if n < 10 then [Nat.digitChar n] else natToStrAux fuel (n / 10) ++ [Nat.digitChar (n % 10)]

/-- Decimal rendering of a natural number as a `String`. -/
def natToString (n : Nat) : String :=
  String.mk (natToStrAux (n + 1) n)

/-- Property type enum (`"sfh" | "condo" | "townhouse" | "live-work" | "co-op"`). -/
inductive PropType where
  | sfh
  | condo
  | townhouse
  | liveWork
  | coop
deriving DecidableEq

/-- Embedding of the `Property` interface. -/
structure Property where
  address : String
  apn : String
  type : PropType
  assessedValue : ℚ
  estimatedMarketValue : ℚ
  purchaseYear : Option ℚ := none
  sqft : Option ℚ := none
  beds : Option ℚ := none
  baths : Option ℚ := none
  lat : Option ℚ := none
  lng : Option ℚ := none
  neighborhood : Option String := none
deriving DecidableEq

/-- Embedding of the `Comp` interface. -/
structure Comp where
  id : String
  address : String
  saleDate : String
  salePrice : ℚ
  sqft : ℚ
  beds : ℚ
  baths : ℚ
  distance : ℚ
  included : Bool
  notes : String
deriving DecidableEq

/-- Narrative tone enum. -/
inductive Tone where
  | formal
  | neutral
  | concise
deriving DecidableEq

/-- Embedding of the drafted argument stored in `state.argument`. -/
structure Argument where
  narrative : String
  declaredMarketValue : ℚ
  tone : Tone
deriving DecidableEq

/-- Embedding of `AppState` — the single in-memory case. -/
structure AppState where
  property : Option Property
  comps : List Comp
  argument : Option Argument
deriving DecidableEq

/-- Payload of the `comp` argument of `manage-comps` (all fields optional in
the zod schema). -/
structure CompPayload where
  id : Option String := none
  address : Option String := none
  saleDate : Option String := none
  salePrice : Option ℚ := none
  sqft : Option ℚ := none
  beds : Option ℚ := none
  baths : Option ℚ := none
  distance : Option ℚ := none
  notes : Option String := none
deriving DecidableEq

/-- JavaScript truthiness of an optional string field (`undefined` and `""`
are falsy). -/
def truthyStr : Option String → Bool
  | none => false
  | some s => s ≠ ""

/-- JavaScript truthiness of an optional numeric field (`undefined` and `0`
are falsy). -/
def truthyNum : Option ℚ → Bool
  | none => false
  | some q => q ≠ 0

/-- The comps counted toward aggregates: `state.comps.filter(c => c.included)`. -/
def includedComps (comps : List Comp) : List Comp :=
  comps.filter (·.included)

/-- Sum of sale prices: `included.reduce((sum, c) => sum + c.salePrice, 0)`. -/
def sumSalePrices (l : List Comp) : ℚ :=
  l.foldl (fun s c => s + c.salePrice) 0

/-- Mean sale price of the included comps. -/
def meanIncludedPrice (comps : List Comp) : ℚ :=
  sumSalePrices (includedComps comps) / (includedComps comps).length

/-- The widget payload and output text that `manage-comps` returns on every
non-error path. -/
structure CompWidget where
  property : Option Property
  comps : List Comp
  caseStrength : Strength
  output : String
deriving DecidableEq

/-- Result of a `manage-comps` call. -/
inductive MCResult where
  | error (msg : String)
  | ok (w : CompWidget)
deriving DecidableEq

/-- Action enum for `manage-comps`. -/
inductive MCAction where
  | add
  | update
  | remove
  | toggle
  | list
deriving DecidableEq

/-- The success payload of `manage-comps`: the recomputed included set, the
derived case strength (falling back to the property's estimated market value
when nothing is included, and to `"weak"` when no property is set), and the
summary text. -/
def compWorkspaceResult (st : AppState) : CompWidget :=
  let included := includedComps st.comps
  let caseStrength := match st.property with
    | some p => calculateCaseStrength p.assessedValue
        (if 0 < included.length then sumSalePrices included / included.length
         else p.estimatedMarketValue)
    | none => .weak
  { property := st.property
    comps := st.comps
    caseStrength := caseStrength
    output := natToString st.comps.length ++ " comps total, " ++
      natToString included.length ++ " included. Case strength: " ++
      caseStrength.str ++ "." }

/-- Error message of the `add` validation. -/
def addErrMsg : String :=
  "To add a comp, provide at least address, saleDate, and salePrice."

/-- The new comp built by `manage-comps add` (`id` is `comp-` followed by
`Date.now()`, passed in here as `now`). -/
def mkNewComp (c : CompPayload) (now : String) : Comp :=
  { id := "comp-" ++ now
    address := c.address.getD ""
    saleDate := c.saleDate.getD ""
    salePrice := c.salePrice.getD 0
    sqft := c.sqft.getD 0
    beds := c.beds.getD 0
    baths := c.baths.getD 0
    distance := c.distance.getD 0
    included := true
    notes := c.notes.getD "" }

/-- Partial merge of an update payload onto an existing comp
(`{ ...state.comps[idx], ...comp }` — absent payload keys are retained). -/
def mergePayload (c : CompPayload) (old : Comp) : Comp :=
  { id := c.id.getD old.id
    address := c.address.getD old.address
    saleDate := c.saleDate.getD old.saleDate
    salePrice := c.salePrice.getD old.salePrice
    sqft := c.sqft.getD old.sqft
    beds := c.beds.getD old.beds
    baths := c.baths.getD old.baths
    distance := c.distance.getD old.distance
    notes := c.notes.getD old.notes
    included := old.included }

/-- Replace the first comp whose id matches (as `findIndex` + assignment does). -/
def updateFirst (f : Comp → Comp) (i : String) : List Comp → List Comp
  | [] => []
  | c :: cs => if c.id = i then f c :: cs else c :: updateFirst f i cs

/-- Remove the first comp whose id matches (as `findIndex` + `splice(idx, 1)` does). -/
def removeFirst (i : String) : List Comp → List Comp
  | [] => []
  | c :: cs => if c.id = i then cs else c :: removeFirst i cs

/-- Flip `included` on the first comp whose id matches (as `find` +
`found.included = !found.included` does). -/
def toggleFirst (i : String) : List Comp → List Comp
  | [] => []
  | c :: cs => if c.id = i then { c with included := !c.included } :: cs
               else c :: toggleFirst i cs

/-- Embedding of the `manage-comps` tool handler.  `now` stands for
`Date.now()` rendered as a string.  Returns the tool result together with
the state after the call. -/
def manageComps (st : AppState) (now : String) (action : MCAction)
    (comp : Option CompPayload) : MCResult × AppState :=
  match action with
  | .add =>
      match comp with
      | none => (.error addErrMsg, st)
      | some c =>
          if truthyStr c.address = false ∨ truthyNum c.salePrice = false ∨
              truthyStr c.saleDate = false then
            (.error addErrMsg, st)
          else
            let st' := { st with comps := st.comps ++ [mkNewComp c now] }
            (.ok (compWorkspaceResult st'), st')
  | .update =>
      match comp with
      | some c =>
          if truthyStr c.id then
            let i := c.id.getD ""
            if st.comps.any (fun x => x.id = i) then
              let st' := { st with comps := updateFirst (mergePayload c) i st.comps }
              (.ok (compWorkspaceResult st'), st')
            else (.error ("Comp not found: " ++ i), st)
          else (.ok (compWorkspaceResult st), st)
      | none => (.ok (compWorkspaceResult st), st)
  | .remove =>
      match comp with
      | some c =>
          if truthyStr c.id then
            let i := c.id.getD ""
            if st.comps.any (fun x => x.id = i) then
              let st' := { st with comps := removeFirst i st.comps }
              (.ok (compWorkspaceResult st'), st')
            else (.error ("Comp not found: " ++ i), st)
          else (.ok (compWorkspaceResult st), st)
      | none => (.ok (compWorkspaceResult st), st)
  | .toggle =>
      match comp with
      | some c =>
          if truthyStr c.id then
            let i := c.id.getD ""
            if st.comps.any (fun x => x.id = i) then
              let st' := { st with comps := toggleFirst i st.comps }
              (.ok (compWorkspaceResult st'), st')
            else (.error ("Comp not found: " ++ i), st)
          else (.ok (compWorkspaceResult st), st)
      | none => (.ok (compWorkspaceResult st), st)
  | .list => (.ok (compWorkspaceResult st), st)

/-- A sample comp used to instantiate theorems on concrete inputs. -/
def sampleComp : Comp :=
  { id := "comp-1", address := "1 MAIN ST", saleDate := "2024-01-02",
    salePrice := 1000000, sqft := 1000, beds := 2, baths := 1,
    distance := 0, included := true, notes := "" }

/-- A sample one-comp case used to instantiate theorems on concrete inputs. -/
def sampleState : AppState :=
  { property := none, comps := [sampleComp], argument := none }

/-- A sample fully-supplied add payload. -/
def samplePayload : CompPayload :=
  { address := some "1 MAIN ST", saleDate := some "2024-01-02",
    salePrice := some 1000000 }

/-- The empty case state (`property: null, comps: [], argument: null`). -/
def emptyState : AppState :=
  { property := none, comps := [], argument := none }

/-- Character-level whitespace test used for the `\s` class and `trim()`. -/
def isWs (c : Char) : Bool := c.isWhitespace

/-- JavaScript `String.prototype.trim()` (left side). -/
def jsTrimLeft (l : List Char) : List Char := l.dropWhile isWs

/-- JavaScript `String.prototype.trim()` (right side). -/
def jsTrimRight (l : List Char) : List Char := (l.reverse.dropWhile isWs).reverse

/-- JavaScript `String.prototype.trim()`. -/
def jsTrim (l : List Char) : List Char := jsTrimRight (jsTrimLeft l)

/-- Worker for `replace(/\s+/g, " ")`: the boolean records whether we are
inside a whitespace run that has already emitted its single space. -/
def collapseWsAux : Bool → List Char → List Char
  | _, [] => []
  | inRun, c :: cs =>
      if isWs c then
        if inRun then collapseWsAux true cs else ' ' :: collapseWsAux true cs
      else c :: collapseWsAux false cs

/-- Embedding of `replace(/\s+/g, " ")`: every maximal whitespace run
becomes a single space. -/
def collapseWs (l : List Char) : List Char := collapseWsAux false l

/-- The street-suffix alternation of the anchor regex, in source order
(`ST|AV|AVE|BLVD|DR|CT|PL|WAY|LN|RD|TER|CIR|HWY`). -/
def suffixTokens : List String :=
  ["ST", "AV", "AVE", "BLVD", "DR", "CT", "PL", "WAY", "LN", "RD", "TER", "CIR", "HWY"]

/-- Case-insensitive prefix test of a token against the input (the `/i`
flag: input characters are uppercased before comparison). -/
def ciPrefix : List Char → List Char → Bool
  | [], _ => true
  | _ :: _, [] => false
  | t :: ts, c :: cs => (c.toUpper = t) && ciPrefix ts cs

/-- First suffix token of the alternation matching at this position, as a
JavaScript regex alternation tries them left to right. -/
def findTok (l : List Char) : Option String :=
  suffixTokens.find? (fun t => ciPrefix t.data l)

/-- Attempt to match `\s*(ST|…|HWY)\s*` at the start of `cs`, returning the
(uppercased) suffix token and the text after the second `\s*` (i.e. the
third capture group `(.*)$`). -/
def trySuffix (cs : List Char) : Option (String × List Char) :=
  let afterSp := cs.dropWhile isWs
  match findTok afterSp with
  | some t => some (t, (afterSp.drop t.length).dropWhile isWs)
  | none => none

/-- Embedding of `collapsed.match(/^(.+?)\s*(ST|…|HWY)\s*(.*)$/i)`: the lazy
group one takes the shortest non-empty prefix after which the
suffix-token part matches, which is what the scan from the left finds
first.  Returns group one, the suffix token (uppercased) and group three. -/
def suffixSplitGo : List Char → List Char → Option (List Char × String × List Char)
  | _, [] => none
  | acc, c :: cs =>
      match trySuffix cs with
      | some (t, rest) => some (acc ++ [c], t, rest)
      | none => suffixSplitGo (acc ++ [c]) cs

/-- Embedding of `beforeSuffix.match(/\d{4}/g)`: the left-to-right
non-overlapping scan for four-digit groups. -/
def scan4 : List Char → List (List Char)
  | a :: b :: c :: d :: rest =>
      if a.isDigit && b.isDigit && c.isDigit && d.isDigit then
        [a, b, c, d] :: scan4 rest
      else scan4 (b :: c :: d :: rest)
  | _ => []

/-- Embedding of `replace(/\d{4}/g, "")`: remove the same non-overlapping
four-digit groups, keeping everything else. -/
def remove4 : List Char → List Char
  | a :: b :: c :: d :: rest =>
      if a.isDigit && b.isDigit && c.isDigit && d.isDigit then remove4 rest
      else a :: remove4 (b :: c :: d :: rest)
  | l => l

/-- `parseInt(point, 10)` on an all-digit group. -/
def digitsVal (l : List Char) : Nat :=
  l.foldl (fun n c => n * 10 + (c.toNat - 48)) 0

/-- Decimal digits of a natural number as characters. -/
def natToStr (n : Nat) : List Char := natToStrAux (n + 1) n

/-- The street number chosen by the parser: the first four-digit group with
a positive integer value, rendered back without leading zeros
(`String(val)`); the empty string when no group qualifies. -/
def streetNumOf (before : List Char) : List Char :=
  match (scan4 before).find? (fun g => 0 < digitsVal g) with
  | some g => natToStr (digitsVal g)
  | none => []

/-- Lookahead `(?=[A-Z]{3})` (with `/i`): three ASCII letters follow. -/
def threeAlpha : List Char → Bool
  | a :: b :: c :: _ => a.isAlpha && b.isAlpha && c.isAlpha
  | _ => false

/-- Length of the leading digit run. -/
def digitRun (l : List Char) : Nat := (l.takeWhile (fun c => c.isDigit)).length

/-- Backtracking of `\d+[A-Z]?(?=[A-Z]{3})` over the digit count, greedy
first (`a` is the number of characters already consumed by the optional
leading letter).  Returns the total match length. -/
def matchArtifactD (l : List Char) (a : Nat) : Nat → Option Nat
  | 0 => none
  | d + 1 =>
      match l.drop (a + d + 1) with
      | c :: rest =>
          if c.isAlpha && threeAlpha rest then some (a + d + 2)
          else if threeAlpha (c :: rest) then some (a + d + 1)
          else matchArtifactD l a d
      | [] => matchArtifactD l a d

/-- Embedding of the anchored artifact regex
`/^[A-Z]?\d+[A-Z]?(?=[A-Z]{3})/i`: the optional leading letter is tried
greedily first; returns the length of the match, if any. -/
def matchArtifact (l : List Char) : Option Nat :=
  match l with
  | [] => none
  | c :: cs =>
      if c.isAlpha then
        match matchArtifactD l 1 (digitRun cs) with
        | some n => some n
        | none => matchArtifactD l 0 (digitRun l)
      else matchArtifactD l 0 (digitRun l)

/-- Embedding of `streetName.replace(/^[A-Z]?\d+[A-Z]?(?=[A-Z]{3})/i, "")`. -/
def stripArtifact (l : List Char) : List Char :=
  match matchArtifact l with
  | some n => l.drop n
  | none => l

/-- `replace(/^#/, "")`: drop one leading hash. -/
def dropHash : List Char → List Char
  | [] => []
  | c :: r => if c = '#' then r else c :: r

/-- The unit token: `afterSuffix.replace(/^#/, "").replace(/^0+/, "")
.replace(/[^A-Z0-9]/gi, "")`. -/
def unitOf (afterSuffix : List Char) : List Char :=
  ((dropHash afterSuffix).dropWhile (fun c => c = '0')).filter
    (fun c => c.isAlpha || c.isDigit)

/-- Embedding of the fallback `collapsed.replace(/^0+(\d)/, "$1")`: strip a
leading zero run that is followed by another digit (backtracking keeps one
zero as the captured digit when the run is all there is). -/
def stripLeadZeros (l : List Char) : List Char :=
  let z := l.takeWhile (fun c => c = '0')
  if z.length = 0 then l
  else
    match l.drop z.length with
    | d :: rest => if d.isDigit then d :: rest else if 2 ≤ z.length then '0' :: d :: rest else l
    | [] => if 2 ≤ z.length then ['0'] else l

/-- `parts.join(" ")`. -/
def joinSpace : List (List Char) → List Char
  | [] => []
  | [x] => x
  | x :: xs => x ++ ' ' :: joinSpace xs

/-- Embedding of `parseAddress` on character lists. -/
def parseAddressL (raw : List Char) : List Char :=
  let trimmed := jsTrim raw
  let collapsed := jsTrim (collapseWs trimmed)
  match suffixSplitGo [] collapsed with
  | some (beforeSuffix, suffix, afterSuffix) =>
      let streetNum := streetNumOf beforeSuffix
      let streetName := jsTrim (stripArtifact (jsTrim (remove4 beforeSuffix)))
      let unit := unitOf afterSuffix
      let parts := [streetNum, streetName, suffix.data].filter (fun p => p ≠ [])
      let base := collapseWs (joinSpace parts)
      if unit ≠ [] then base ++ ' ' :: '#' :: unit else base
  | none => stripLeadZeros collapsed

/-- Embedding of `parseAddress` on strings. -/
def parseAddress (raw : String) : String :=
  String.mk (parseAddressL raw.data)

/-- Embedding of JavaScript `parseFloat` restricted to the plain decimal
forms the assessor feed carries (`none` models `NaN`; the exponent form is
not modelled). -/
def jsParseFloat (s : String) : Option ℚ :=
  let l := s.data.dropWhile isWs
  let signAndRest : Int × List Char :=
    match l with
    | '-' :: r => (-1, r)
    | '+' :: r => (1, r)
    | r => (1, r)
  let intPart := signAndRest.2.takeWhile (fun c => c.isDigit)
  let rest := signAndRest.2.dropWhile (fun c => c.isDigit)
  let fracPart : List Char :=
    match rest with
    | '.' :: r => r.takeWhile (fun c => c.isDigit)
    | _ => []
  if intPart.isEmpty && fracPart.isEmpty then none
  else some (mkRat
    (signAndRest.1 * (digitsVal intPart * 10 ^ fracPart.length + digitsVal fracPart))
    (10 ^ fracPart.length))

/-- NaN-propagating addition of two parsed numbers. -/
def nanAdd : Option ℚ → Option ℚ → Option ℚ
  | some a, some b => some (a + b)
  | _, _ => none

/-- `assessed > 0`, false for NaN. -/
def nanPos : Option ℚ → Bool
  | some v => 0 < v
  | none => false

/-- JavaScript `Math.round`: round half toward positive infinity. -/
def jsRound (q : ℚ) : ℤ := ⌊q + 1/2⌋

/-- Embedding of the `SFRecord` fields the pipeline reads.  `the_geom`
holds the `[longitude, latitude]` coordinate pair. -/
structure SFRecord where
  property_location : Option String := none
  parcel_number : Option String := none
  use_code : Option String := none
  property_class_code_definition : Option String := none
  number_of_bedrooms : Option String := none
  number_of_bathrooms : Option String := none
  property_area : Option String := none
  assessed_land_value : Option String := none
  assessed_improvement_value : Option String := none
  current_sales_date : Option String := none
  the_geom : Option (ℚ × ℚ) := none
deriving DecidableEq

/-- The `assessed` sum `parseFloat(rec.assessed_land_value ?? "0") +
parseFloat(rec.assessed_improvement_value ?? "0")`. -/
def assessedOf (rec : SFRecord) : Option ℚ :=
  nanAdd (jsParseFloat (rec.assessed_land_value.getD "0"))
    (jsParseFloat (rec.assessed_improvement_value.getD "0"))

/-- The `dist` computed per record in `find-comps`: `hav` abstracts the
transcendental `haversineDistance`; `coords && state.property?.lat &&
state.property?.lng` is a JavaScript truthiness chain (a latitude or
longitude of 0 falls back to distance 0). -/
def distOf (hav : ℚ → ℚ → ℚ → ℚ → ℚ) (prop : Option Property) (rec : SFRecord) : ℚ :=
  match rec.the_geom with
  | some coords =>
      match prop with
      | some p =>
          if truthyNum p.lat && truthyNum p.lng then
            hav (p.lat.getD 0) (p.lng.getD 0) coords.2 coords.1
          else 0
      | none => 0
  | none => 0

/-- The comp built from one record by `find-comps` (lines 507–520): the id
is `comp-` followed by the parcel number, falling back to `Date.now()`
(`now`) when the parcel number is missing; `NaN` numeric fields, which ℚ
cannot represent, are collapsed to 0 (they are unreachable behind the
positive-assessed filter for `salePrice`). -/
def recordToComp (hav : ℚ → ℚ → ℚ → ℚ → ℚ) (prop : Option Property) (now : String)
    (rec : SFRecord) : Comp :=
  { id := "comp-" ++ (match rec.parcel_number with | some p => p | none => now)
    address := parseAddress (rec.property_location.getD "")
    saleDate := match rec.current_sales_date with
      | some d => String.mk (d.data.takeWhile (fun c => c ≠ 'T'))
      | none => ""
    salePrice := ((jsRound ((assessedOf rec).getD 0) : ℤ) : ℚ)
    sqft := (jsParseFloat (rec.property_area.getD "0")).getD 0
    beds := (jsParseFloat (rec.number_of_bedrooms.getD "0")).getD 0
    baths := (jsParseFloat (rec.number_of_bathrooms.getD "0")).getD 0
    distance := ((jsRound (distOf hav prop rec * 100) : ℤ) : ℚ) / 100
    included := true
    notes := rec.property_class_code_definition.getD "" }

/-- Embedding of the record-integration step of `find-comps` (lines
485–529): convert the records with positive assessed value to comps, then
push only those whose id is not already in the case (the `existingIds` set
is computed once, before the loop). -/
def integrateRecords (hav : ℚ → ℚ → ℚ → ℚ → ℚ) (now : String) (st : AppState)
    (records : List SFRecord) : AppState :=
  let newComps := (records.filter (fun rec => nanPos (assessedOf rec))).map
    (recordToComp hav st.property now)
  let existingIds := st.comps.map (·.id)
  { st with comps := st.comps ++ newComps.filter (fun c => c.id ∉ existingIds) }

/-- A sample assessor record used to instantiate theorems on concrete inputs. -/
def sampleRecord : SFRecord :=
  { parcel_number := some "0595139", assessed_land_value := some "500000" }

/-- Comma grouping of a digit string, working from the right. -/
def commaGroupRev : List Char → List Char
  | a :: b :: c :: d :: rest => a :: b :: c :: ',' :: commaGroupRev (d :: rest)
  | l => l

/-- Insert en-US thousands separators into a digit string. -/
def commaGroup (l : List Char) : List Char :=
  (commaGroupRev l.reverse).reverse

/-- Strip trailing zero characters. -/
def stripTrailingZeros (l : List Char) : List Char :=
  (l.reverse.dropWhile (fun c => c = '0')).reverse

/-- Left-pad a digit string with zeros to the given width. -/
def padZeros (width : Nat) (l : List Char) : List Char :=
  List.replicate (width - l.length) '0' ++ l

/-- Model of `Number.prototype.toLocaleString("en-US")`: comma-grouped
integer part, at most three fraction digits (half away from zero), trailing
fraction zeros dropped. -/
def localeString (q : ℚ) : String :=
  let sign : List Char := if q < 0 then ['-'] else []
  let scaled : ℕ := (⌊|q| * 1000 + 1/2⌋).toNat
  let ip := scaled / 1000
  let fr := scaled % 1000
  String.mk (sign ++ commaGroup (natToStr ip) ++
    (if fr = 0 then [] else '.' :: stripTrailingZeros (padZeros 3 (natToStr fr))))

/-- Embedding of `formatCurrency`. -/
def formatCurrency (n : ℚ) : String := "$" ++ localeString n

/-- Model of `Number.prototype.toFixed(1)`: one fraction digit, ties
rounded up in magnitude. -/
def ratToFixed1 (q : ℚ) : String :=
  let sign : List Char := if q < 0 then ['-'] else []
  let n : ℕ := (⌊|q| * 10 + 1/2⌋).toNat
  String.mk (sign ++ natToStr (n / 10) ++ '.' :: natToStr (n % 10))

/-- Smallest power-of-ten exponent (up to 17) whose power the denominator
divides, if any. -/
def decExp (den : ℕ) : Option ℕ :=
  (List.range 18).find? (fun k => den ∣ 10 ^ k)

/-- Model of JavaScript default number-to-string for the rationals the
pipeline produces (denominator dividing a power of ten → exact decimal
without trailing zeros; anything else rendered as a fraction). -/
def ratRepr (q : ℚ) : String :=
  let sign : List Char := if q.num < 0 then ['-'] else []
  match decExp q.den with
  | some k =>
      let scaled : ℕ := q.num.natAbs * (10 ^ k / q.den)
      let ds := padZeros (k + 1) (natToStr scaled)
      let ip := ds.take (ds.length - k)
      let fr := stripTrailingZeros (ds.drop (ds.length - k))
      String.mk (sign ++ ip ++ (if fr.isEmpty then [] else '.' :: fr))
  | none => String.mk (sign ++ natToStr q.num.natAbs ++ '/' :: natToStr q.den)

/-- `parts.join("\n")` for the narrative and packet line arrays. -/
def joinLines : List String → String
  | [] => ""
  | [s] => s
  | s :: rest => s ++ "\n" ++ joinLines rest

/-- The property-type strings as interpolated (`sfh`, `condo`, …). -/
def PropType.str : PropType → String
  | .sfh => "sfh"
  | .condo => "condo"
  | .townhouse => "townhouse"
  | .liveWork => "live-work"
  | .coop => "co-op"

/-- One line of the enumerated comparable list in the narrative. -/
def compLine (idx : Nat) (c : Comp) : String :=
  natToString (idx + 1) ++ ". **" ++ c.address ++ "** — Sold " ++ c.saleDate ++
    " for " ++ formatCurrency c.salePrice ++ " (" ++ ratRepr c.sqft ++ " sqft, " ++
    ratRepr c.beds ++ "bd/" ++ ratRepr c.baths ++ "ba, " ++ ratRepr c.distance ++
    " mi)" ++ (if c.notes ≠ "" then " — " ++ c.notes else "")

/-- Result of `generate-argument`: an error or the markdown narrative. -/
inductive GAResult where
  | error (msg : String)
  | markdown (text : String)
deriving DecidableEq

/-- The formal-tone narrative template. -/
def formalNarrative (p : Property) (included : List Comp) (declared : ℚ)
    (gapPct compLines : String) : String :=
  joinLines [
    "# Informal Review — Value Argument\n",
    "## Subject Property",
    "- **Address:** " ++ p.address,
    "- **APN:** " ++ p.apn,
    "- **Property Type:** " ++ p.type.str,
    "- **Current Assessed Value:** " ++ formatCurrency p.assessedValue,
    "- **Owner\x27s Opinion of Market Value (as of Jan 1):** " ++
      formatCurrency declared ++ "\n",
    "## Basis for Requested Reduction",
    "The current assessed value of " ++ formatCurrency p.assessedValue ++
      " exceeds the fair market value of the subject property as of the January 1 lien date. Based on " ++
      natToString included.length ++
      " comparable neighborhood sales, the estimated market value is " ++
      formatCurrency declared ++ ", representing a " ++ gapPct ++
      "% decline from the assessed value.\n",
    "## Comparable Sales Evidence",
    compLines,
    "\n## Conclusion",
    "The comparable sales data supports a market value of " ++ formatCurrency declared ++
      " as of January 1. I respectfully request that the assessed value be reduced to reflect the current market conditions."]

/-- The concise-tone narrative template. -/
def conciseNarrative (p : Property) (declared : ℚ) (gapPct compLines : String) : String :=
  joinLines [
    "**Property:** " ++ p.address ++ " (APN: " ++ p.apn ++ ")",
    "**Assessed:** " ++ formatCurrency p.assessedValue ++ " | **Market Value:** " ++
      formatCurrency declared ++ " | **Gap:** " ++ gapPct ++ "%\n",
    "**Comps:**",
    compLines,
    "\nBased on these sales, market value is " ++ formatCurrency declared ++
      ". Requesting reduction."]

/-- The neutral-tone narrative template. -/
def neutralNarrative (p : Property) (declared avgCompPrice : ℚ)
    (gapPct compLines : String) : String :=
  joinLines [
    "# Value Argument for " ++ p.address ++ "\n",
    "My property at " ++ p.address ++ " (APN: " ++ p.apn ++
      ") is currently assessed at " ++ formatCurrency p.assessedValue ++
      ". Based on recent comparable sales in the neighborhood, I believe the market value as of January 1 is " ++
      formatCurrency declared ++ ", which is " ++ gapPct ++
      "% below the assessed value.\n",
    "## Comparable Sales",
    compLines,
    "\nThe average sale price of these comparable properties is " ++
      formatCurrency ((jsRound avgCompPrice : ℤ) : ℚ) ++
      ". I am requesting that my assessed value be reduced to " ++
      formatCurrency declared ++ " to reflect current market conditions."]

/-- Embedding of the `generate-argument` tool handler: checks the property
and included-comps preconditions, defaults the declared value to the
rounded mean of included sale prices, renders the tone-selected narrative
and stores the argument on the state. -/
def generateArgument (st : AppState) (tone : Tone) (declaredMarketValue : Option ℚ) :
    GAResult × AppState :=
  match st.property with
  | none =>
      (.error "No property on file. Use manage-property first to set up the subject property.",
        st)
  | some p =>
      let included := includedComps st.comps
      if included.length = 0 then
        (.error "No comparable sales selected. Add comps with manage-comps first.", st)
      else
        let avgCompPrice := sumSalePrices included / included.length
        let declared : ℚ := match declaredMarketValue with
          | some v => v
          | none => ((jsRound avgCompPrice : ℤ) : ℚ)
        let gap := p.assessedValue - declared
        let gapPct := ratToFixed1 (gap / p.assessedValue * 100)
        let compLines := joinLines (included.enum.map (fun ic => compLine ic.1 ic.2))
        let narrative := match tone with
          | .formal => formalNarrative p included declared gapPct compLines
          | .concise => conciseNarrative p declared gapPct compLines
          | .neutral => neutralNarrative p declared avgCompPrice gapPct compLines
        let arg : Argument :=
          { narrative := narrative, declaredMarketValue := declared, tone := tone }
        (.markdown narrative, { st with argument := some arg })

/-- A sample subject property used to instantiate theorems. -/
def sampleProperty : Property :=
  { address := "1 MAIN ST", apn := "0595139", type := .sfh,
    assessedValue := 1200000, estimatedMarketValue := 1000000 }

/-- A second sample comp (priced 900000) used to instantiate theorems. -/
def sampleComp2 : Comp :=
  { id := "comp-2", address := "3 MAIN ST", saleDate := "2024-02-03",
    salePrice := 900000, sqft := 900, beds := 2, baths := 1,
    distance := 0, included := true, notes := "" }

/-- A sample case with a property and two included comps priced 900000 and
1000000. -/
def sampleState2 : AppState :=
  { property := some sampleProperty, comps := [sampleComp2, sampleComp], argument := none }

/-- `caseStrength.toUpperCase()` as interpolated into the packet. -/
def Strength.upper : Strength → String
  | .weak => "WEAK"
  | .medium => "MEDIUM"
  | .strong => "STRONG"

/-- JavaScript interpolation of an optional number (`undefined` renders as
the string `undefined`). -/
def optRatRepr : Option ℚ → String
  | some v => ratRepr v
  | none => "undefined"

/-- One row of the packet's comparable table. -/
def compRow (c : Comp) : String :=
  "| " ++ c.address ++ " | " ++ c.saleDate ++ " | " ++ formatCurrency c.salePrice ++
    " | " ++ localeString c.sqft ++ " | " ++ ratRepr c.beds ++ "/" ++ ratRepr c.baths ++
    " | " ++ ratRepr c.distance ++ " mi | " ++ (if c.notes ≠ "" then c.notes else "—") ++
    " |"

/-- The packet lines before the comparable rows: title, subject-property
table (with the conditional neighborhood/size/beds rows that the
`filter(Boolean)` drops when falsy) and the comparable-table header. -/
def packetPropLines (property : Property) (argument : Argument)
    (caseStrength : Strength) : List String :=
  let gap := property.assessedValue - argument.declaredMarketValue
  let gapPct := ratToFixed1 (gap / property.assessedValue * 100)
  ["# Prop 8 Informal Review — Filing Packet",
   "\n## Subject Property",
   "| Field | Value |",
   "|-------|-------|",
   "| **Address** | " ++ property.address ++ " |",
   "| **APN** | " ++ property.apn ++ " |",
   "| **Property Type** | " ++ property.type.str ++ " |",
   if truthyStr property.neighborhood then
     "| **Neighborhood** | " ++ property.neighborhood.getD "" ++ " |" else "",
   "| **Current Assessed Value** | " ++ formatCurrency property.assessedValue ++ " |",
   "| **Declared Market Value** | " ++ formatCurrency argument.declaredMarketValue ++ " |",
   "| **Reduction Requested** | " ++ formatCurrency gap ++ " (" ++ gapPct ++ "%) |",
   "| **Case Strength** | " ++ caseStrength.upper ++ " |",
   if truthyNum property.sqft then
     "| **Size** | " ++ localeString (property.sqft.getD 0) ++ " sqft |" else "",
   if truthyNum property.beds then
     "| **Beds/Baths** | " ++ optRatRepr property.beds ++ "/" ++ optRatRepr property.baths ++
       " |" else "",
   "\n## Comparable Sales Evidence",
   "| Address | Sale Date | Price | Sqft | Bed/Bath | Distance | Notes |",
   "|---------|-----------|-------|------|----------|----------|-------|"]

/-- The packet lines between the comparable rows and the narrative. -/
def packetMidLines (avgCompPrice : ℚ) : List String :=
  ["\n**Average Comparable Sale Price:** " ++ formatCurrency avgCompPrice,
   "\n## Value Argument"]

/-- The fixed packet tail: submission checklist, submission instructions,
reminders and the closing disclaimer (the filing-window line depends only
on the clock). -/
def packetTailLines (windowOpen : Bool) : List String :=
  ["\n## Submission Checklist",
   "- [ ] Review all property details above for accuracy",
   "- [ ] Verify comparable sales are appropriate",
   "- [ ] Review value argument narrative",
   "- [ ] Submit via one of the methods below",
   "- [ ] Keep a copy of everything you submit",
   "\n## How to Submit",
   "**Filing Window:** " ++ (if windowOpen then "OPEN (Jan 2 – Mar 31)" else "CLOSED"),
   "\n### Online (Preferred)",
   "SF Assessor-Recorder Community Portal: https://sfassessor.org/community-portal",
   "\n### By Mail",
   "Office of the Assessor-Recorder, City Hall, Room 190",
   "1 Dr. Carlton B. Goodlett Place, San Francisco, CA 94102",
   "\n### By Fax",
   "(415) 554-7151",
   "\n### By Email",
   "assessor@sfgov.org",
   "\n## Important Reminders",
   "- Only the property **owner** may file (no third-party filings)",
   "- Comparable sales should be as close to January 1 as possible",
   "- Sales after March 31 will **not** be considered",
   "- Results are mailed in **July** via Notice of Assessed Value",
   "- If denied, you may file a formal Assessment Appeal (AAB)",
   "\n---",
   "*This packet was prepared using OnlyAppeals. It provides informational and document-preparation support only — not legal or tax advice. No guarantee of assessment reduction is made or implied.*"]

/-- Embedding of `buildPacketMarkdown`: the full line array (grouped here
as prop lines ++ comp rows ++ mid lines ++ narrative ++ tail lines, in the
source's order), emptied entries filtered out, joined by newlines. -/
def buildPacketMarkdown (property : Property) (included : List Comp)
    (argument : Argument) (caseStrength : Strength) (avgCompPrice : ℚ)
    (windowOpen : Bool) : String :=
  let compRows := joinLines (included.map compRow)
  joinLines ((packetPropLines property argument caseStrength ++ [compRows] ++
    packetMidLines avgCompPrice ++ [argument.narrative] ++
    packetTailLines windowOpen).filter (fun s => s ≠ ""))

/-- Result of `generate-packet` / `export-packet`: an error or the packet
markdown. -/
inductive GPResult where
  | error (msg : String)
  | packet (md : String)
deriving DecidableEq

/-- Embedding of the `generate-packet` tool handler (`windowOpen` stands
for the `isFilingWindowOpen()` clock reading).  The widget wrapper carries
the same markdown the handler computes. -/
def generatePacket (st : AppState) (windowOpen : Bool) : GPResult :=
  match st.property with
  | none => .error "No property on file. Use lookup-property or manage-property first."
  | some p =>
      let included := includedComps st.comps
      if included.length = 0 then
        .error "No comparable sales selected. Use find-comps or manage-comps first."
      else
        match st.argument with
        | none => .error "No value argument drafted. Use generate-argument first."
        | some argument =>
            let avgCompPrice : ℚ :=
              ((jsRound (sumSalePrices included / (included.length : ℚ)) : ℤ) : ℚ)
            let caseStrength :=
              calculateCaseStrength p.assessedValue argument.declaredMarketValue
            .packet (buildPacketMarkdown p included argument caseStrength avgCompPrice
              windowOpen)

/-- Embedding of the `export-packet` tool handler. -/
def exportPacket (st : AppState) (windowOpen : Bool) : GPResult :=
  match st.property with
  | none => .error "No property on file. Build your case first."
  | some p =>
      let included := includedComps st.comps
      if included.length = 0 then
        .error "No comparable sales selected."
      else
        match st.argument with
        | none => .error "No value argument drafted. Use generate-argument first."
        | some argument =>
            let avgCompPrice : ℚ :=
              ((jsRound (sumSalePrices included / (included.length : ℚ)) : ℤ) : ℚ)
            let caseStrength :=
              calculateCaseStrength p.assessedValue argument.declaredMarketValue
            .packet (buildPacketMarkdown p included argument caseStrength avgCompPrice
              windowOpen)

/-- A sample drafted argument. -/
def sampleArgument : Argument :=
  { narrative := "sample narrative", declaredMarketValue := 950000, tone := .neutral }

/-- Modelled from the spec\x27s words: a raw record-address string in the
documented positional format — zero-padded primary number, zero-padded
secondary number, street name, a run of spaces, street-type suffix token,
trailing zero-padded unit code. -/
def docFormatRaw (primary secondary name : List Char) (k : ℕ) (suffix : String)
    (unit : List Char) : List Char :=
  primary ++ (' ' :: (secondary ++ (' ' :: (name ++
    (List.replicate k ' ' ++ (suffix.data ++ unit))))))

/-- Does the street name contain one of the suffix tokens as a
(case-insensitive) substring? -/
def containsTok (name : List Char) : Bool :=
  name.tails.any (fun suf => suffixTokens.any (fun t => ciPrefix t.data suf))

/-- Modelled from the spec\x27s words: the side conditions making the five
positional fields a well-formed documented address — four-digit primary,
secondary and unit fields, a non-empty upper-case street-name word, at
least one space before the suffix token, and a suffix token from the fixed
vocabulary. -/
def docFormatOk (primary secondary name : List Char) (k : ℕ) (suffix : String)
    (unit : List Char) : Bool :=
  primary.length = 4 && primary.all Char.isDigit &&
  secondary.length = 4 && secondary.all Char.isDigit &&
  unit.length = 4 && unit.all Char.isDigit &&
  !name.isEmpty && name.all Char.isUpper &&
  1 ≤ k && suffix ∈ suffixTokens

/-- Split a character list at spaces (used only to state the claimed
output shape). -/
def splitSp : List Char → List (List Char)
  | [] => [[]]
  | c :: rest =>
      match splitSp rest with
      | [] => [[c]]
      | w :: ws => if c = ' ' then [] :: w :: ws else (c :: w) :: ws

/-- No two adjacent spaces. -/
def noDoubleSpace : List Char → Bool
  | a :: b :: rest => !(a = ' ' && b = ' ') && noDoubleSpace (b :: rest)
  | _ => true

/-- Modelled from the spec\x27s words: detach a trailing `#unit` word, if
present, from the space-separated words of the output. -/
def splitUnit (parts : List (List Char)) : List (List Char) × Option (List Char) :=
  match parts.getLast? with
  | some lastP =>
      if lastP.head? = some '#' then (parts.dropLast, some (lastP.drop 1))
      else (parts, none)
  | none => (parts, none)

/-- Modelled from the spec\x27s words: the street number is a non-empty
digit string without a leading zero. -/
def numOk (num : List Char) : Bool :=
  !num.isEmpty && num.all Char.isDigit && !(num.head? = some '0')

/-- Modelled from the spec\x27s words: after the number come one or more
non-empty name words and then a street-suffix token. -/
def wordsOk (rest : List (List Char)) : Bool :=
  2 ≤ rest.length && rest.all (fun wd => !wd.isEmpty) &&
  (match rest.getLast? with
   | some sfx => suffixTokens.any (fun t => t.data = sfx)
   | none => false)

/-- Modelled from the spec\x27s words: an optional unit is non-empty,
alphanumeric and free of leading zeros. -/
def unitOk : Option (List Char) → Bool
  | some uu => !uu.isEmpty && uu.all Char.isAlphanum && !(uu.head? = some '0')
  | none => true

/-- Modelled from the spec\x27s words: the claimed canonical output shape
`<number> <name> <suffix>[ #<unit>]` — a positive number without leading
zeros, at least one name word, a suffix token, and an optional non-empty
alphanumeric unit without leading zeros after a hash. -/
def claimShape (s : String) : Bool :=
  let pu := splitUnit (splitSp s.data)
  (match pu.1 with
   | num :: rest => numOk num && wordsOk rest
   | [] => false) &&
  unitOk pu.2 && noDoubleSpace s.data

end OnlyAppeals

namespace OnlyAppeals

/-- C1: For positive assessed and reference values the scorer returns
`strong` exactly when the gap percentage is at least 15, `medium` exactly
when it is at least 5 and below 15, and `weak` otherwise — including every
case where the reference value is at or above the assessed value; moreover
`strength(500000, 425000) = strong`, `strength(500000, 460000) = medium`,
`strength(500000, 490000) = weak`, and `strength(500000, 520000) = weak`. -/
theorem C1_case_strength (a e : ℚ) (ha : 0 < a) (he : 0 < e) :
    (calculateCaseStrength a e = .strong ↔ 15 ≤ gapPercent a e) ∧
    (calculateCaseStrength a e = .medium ↔ 5 ≤ gapPercent a e ∧ gapPercent a e < 15) ∧
    (calculateCaseStrength a e = .weak ↔ gapPercent a e < 5) ∧
    (a ≤ e → calculateCaseStrength a e = .weak) ∧
    calculateCaseStrength 500000 425000 = .strong ∧
    calculateCaseStrength 500000 460000 = .medium ∧
    calculateCaseStrength 500000 490000 = .weak ∧
    calculateCaseStrength 500000 520000 = .weak := by
  unfold calculateCaseStrength gapPercent
  dsimp only
  refine ⟨?_, ?_, ?_, ?_, by norm_num, by norm_num, by norm_num, by norm_num⟩
  · split_ifs with h1 h2 <;> simp_all <;> linarith
  · split_ifs with h1 h2 <;> simp_all <;> constructor <;> intro <;> linarith
  · split_ifs with h1 h2 <;> simp_all <;> linarith
  · intro hle
    have hnum : (a - e) / a * 100 ≤ 0 := by
      apply mul_nonpos_of_nonpos_of_nonneg
      · exact div_nonpos_of_nonpos_of_nonneg (by linarith) (le_of_lt ha)
      · norm_num
    split_ifs with h1 h2 <;> [linarith; linarith; rfl]

/-- Witness for C1 at `a = 500000`, `e = 425000`. -/
theorem C1_case_strength_witness :
    (0:ℚ) < 500000 ∧ (0:ℚ) < 425000 ∧
    (calculateCaseStrength 500000 425000 = .strong ↔ 15 ≤ gapPercent 500000 425000) :=
  ⟨by norm_num, by norm_num, (C1_case_strength 500000 425000 (by norm_num) (by norm_num)).1⟩

/-- Case analysis of the radius ladder by the size of the requested radius. -/
theorem radiiToTry_eq (r : ℚ) :
    (r < 0.75 ∧ radiiToTry r = [r, 0.75, 1, 1.5, 2]) ∨
    (0.75 ≤ r ∧ r < 1 ∧ radiiToTry r = [r, 1, 1.5, 2]) ∨
    (1 ≤ r ∧ r < 1.5 ∧ radiiToTry r = [r, 1.5, 2]) ∨
    (1.5 ≤ r ∧ r < 2 ∧ radiiToTry r = [r, 2]) ∨
    (2 ≤ r ∧ radiiToTry r = [r]) := by
  rcases lt_or_le r 0.75 with h1 | h1
  · refine Or.inl ⟨h1, ?_⟩
    unfold radiiToTry
    rw [if_pos h1, if_pos (show r < 1 by linarith), if_pos (show r < 1.5 by linarith),
      if_pos (show r < 2 by linarith)]
    rfl
  rcases lt_or_le r 1 with h2 | h2
  · refine Or.inr (Or.inl ⟨h1, h2, ?_⟩)
    unfold radiiToTry
    rw [if_neg (show ¬ r < 0.75 by linarith), if_pos h2, if_pos (show r < 1.5 by linarith),
      if_pos (show r < 2 by linarith)]
    rfl
  rcases lt_or_le r 1.5 with h3 | h3
  · refine Or.inr (Or.inr (Or.inl ⟨h2, h3, ?_⟩))
    unfold radiiToTry
    rw [if_neg (show ¬ r < 0.75 by linarith), if_neg (show ¬ r < 1 by linarith), if_pos h3,
      if_pos (show r < 2 by linarith)]
    rfl
  rcases lt_or_le r 2 with h4 | h4
  · refine Or.inr (Or.inr (Or.inr (Or.inl ⟨h3, h4, ?_⟩)))
    unfold radiiToTry
    rw [if_neg (show ¬ r < 0.75 by linarith), if_neg (show ¬ r < 1 by linarith),
      if_neg (show ¬ r < 1.5 by linarith), if_pos h4]
    rfl
  · refine Or.inr (Or.inr (Or.inr (Or.inr ⟨h4, ?_⟩)))
    unfold radiiToTry
    rw [if_neg (show ¬ r < 0.75 by linarith), if_neg (show ¬ r < 1 by linarith),
      if_neg (show ¬ r < 1.5 by linarith), if_neg (show ¬ r < 2 by linarith)]
    rfl

/-- The loop of `find-comps` stops at the first radius whose query yields a
record: on a strictly sorted ladder the effective radius is a member of the
ladder, has a non-empty query, and is minimal among radii with non-empty
queries. -/
theorem searchLadder_first_hit (query : ℚ → ℕ) :
    ∀ (l : List ℚ) (u : ℚ), l.Sorted (· < ·) → (∃ x ∈ l, 0 < query x) →
      searchLadder query l u ∈ l ∧ 0 < query (searchLadder query l u) ∧
        ∀ y ∈ l, 0 < query y → searchLadder query l u ≤ y := by
  intro l
  induction l with
  | nil => simp
  | cons a t ih =>
      intro u hs hex
      by_cases ha : 0 < query a
      · refine ⟨by simp [searchLadder, ha], by simp [searchLadder, ha], ?_⟩
        intro y hy _
        rcases List.mem_cons.mp hy with rfl | hyt
        · simp [searchLadder, ha]
        · have : a < y := (List.sorted_cons.mp hs).1 y hyt
          simp only [searchLadder, if_pos ha]
          linarith
      · have hex' : ∃ x ∈ t, 0 < query x := by
          rcases hex with ⟨x, hx, hqx⟩
          rcases List.mem_cons.mp hx with rfl | hxt
          · exact absurd hqx ha
          · exact ⟨x, hxt, hqx⟩
        have htail := ih a (List.sorted_cons.mp hs).2 hex'
        refine ⟨?_, ?_, ?_⟩
        · simp only [searchLadder, if_neg ha]
          exact List.mem_cons_of_mem _ htail.1
        · simpa [searchLadder, ha] using htail.2.1
        · intro y hy hqy
          rcases List.mem_cons.mp hy with rfl | hyt
          · exact absurd hqy ha
          · simpa [searchLadder, ha] using htail.2.2 y hyt hqy

/-- C2 counterexample: for the requested radius 2.5 the ladder contains the
radius 2.5 itself, which exceeds the claimed hard ceiling of 2.0, so
`find-comps` tries a radius above 2.0. -/
theorem C2_counterexample :
    (5/2 : ℚ) ∈ radiiToTry (5/2) ∧ ¬ ((5/2 : ℚ) ≤ 2) := by
  constructor
  · unfold radiiToTry
    simp
  · norm_num

/-- C2 (amended): for every requested radius `r > 0` the ladder tried by
`find-comps` is strictly ascending, drawn from `{r, 0.75, 1, 1.5, 2}`,
deduplicated, filtered to values at least `r`, and every tried radius other
than the requested one itself is at most the 2.0 hard ceiling; the effective
radius is the first one in that order whose query yields at least one
record; consequently when radius 0.5 yields zero results and radius 1.0
yields results, the effective radius is at most 1.0 — and exactly 1.0 when
the intermediate 0.75 checkpoint also yields zero results. -/
theorem C2_radius_ladder (r : ℚ) (hr : 0 < r) (query : ℚ → ℕ) :
    (radiiToTry r).Sorted (· < ·) ∧
    (∀ x ∈ radiiToTry r, (x = r ∨ x = 0.75 ∨ x = 1 ∨ x = 1.5 ∨ x = 2) ∧ r ≤ x) ∧
    (radiiToTry r).Nodup ∧
    (∀ x ∈ (radiiToTry r).tail, x ≤ 2) ∧
    ((∃ x ∈ radiiToTry r, 0 < query x) →
      effectiveRadius query r ∈ radiiToTry r ∧ 0 < query (effectiveRadius query r) ∧
        ∀ y ∈ radiiToTry r, 0 < query y → effectiveRadius query r ≤ y) ∧
    (query 0.5 = 0 → 0 < query 1 →
      effectiveRadius query (1/2) ≤ 1 ∧
        (query 0.75 = 0 → effectiveRadius query (1/2) = 1)) := by
  have hsorted : (radiiToTry r).Sorted (· < ·) := by
    rcases radiiToTry_eq r with ⟨h, he⟩ | ⟨h1, h2, he⟩ | ⟨h1, h2, he⟩ | ⟨h1, h2, he⟩ | ⟨h, he⟩ <;>
        rw [he]
    · refine List.sorted_cons.mpr ⟨?_, by norm_num [List.sorted_cons]⟩
      intro b hb
      simp only [List.mem_cons, List.not_mem_nil, or_false] at hb
      rcases hb with rfl | rfl | rfl | rfl <;> linarith
    · refine List.sorted_cons.mpr ⟨?_, by norm_num [List.sorted_cons]⟩
      intro b hb
      simp only [List.mem_cons, List.not_mem_nil, or_false] at hb
      rcases hb with rfl | rfl | rfl <;> linarith
    · refine List.sorted_cons.mpr ⟨?_, by norm_num [List.sorted_cons]⟩
      intro b hb
      simp only [List.mem_cons, List.not_mem_nil, or_false] at hb
      rcases hb with rfl | rfl <;> linarith
    · refine List.sorted_cons.mpr ⟨?_, by norm_num [List.sorted_cons]⟩
      intro b hb
      simp only [List.mem_cons, List.not_mem_nil, or_false] at hb
      subst hb; linarith
    · simp
  refine ⟨hsorted, ?_, hsorted.nodup, ?_, ?_, ?_⟩
  · intro x hx
    rcases radiiToTry_eq r with ⟨h, he⟩ | ⟨h1, h2, he⟩ | ⟨h1, h2, he⟩ | ⟨h1, h2, he⟩ | ⟨h, he⟩ <;>
        rw [he] at hx <;>
        simp only [List.mem_cons, List.not_mem_nil, or_false] at hx
    · rcases hx with rfl | rfl | rfl | rfl | rfl
      · exact ⟨Or.inl rfl, le_refl x⟩
      · exact ⟨Or.inr (Or.inl rfl), by linarith⟩
      · exact ⟨Or.inr (Or.inr (Or.inl rfl)), by linarith⟩
      · exact ⟨Or.inr (Or.inr (Or.inr (Or.inl rfl))), by linarith⟩
      · exact ⟨Or.inr (Or.inr (Or.inr (Or.inr rfl))), by linarith⟩
    · rcases hx with rfl | rfl | rfl | rfl
      · exact ⟨Or.inl rfl, le_refl x⟩
      · exact ⟨Or.inr (Or.inr (Or.inl rfl)), by linarith⟩
      · exact ⟨Or.inr (Or.inr (Or.inr (Or.inl rfl))), by linarith⟩
      · exact ⟨Or.inr (Or.inr (Or.inr (Or.inr rfl))), by linarith⟩
    · rcases hx with rfl | rfl | rfl
      · exact ⟨Or.inl rfl, le_refl x⟩
      · exact ⟨Or.inr (Or.inr (Or.inr (Or.inl rfl))), by linarith⟩
      · exact ⟨Or.inr (Or.inr (Or.inr (Or.inr rfl))), by linarith⟩
    · rcases hx with rfl | rfl
      · exact ⟨Or.inl rfl, le_refl x⟩
      · exact ⟨Or.inr (Or.inr (Or.inr (Or.inr rfl))), by linarith⟩
    · subst hx
      exact ⟨Or.inl rfl, le_refl x⟩
  · intro x hx
    rcases radiiToTry_eq r with ⟨h, he⟩ | ⟨h1, h2, he⟩ | ⟨h1, h2, he⟩ | ⟨h1, h2, he⟩ | ⟨h, he⟩ <;>
        rw [he] at hx <;>
        simp only [List.tail_cons, List.mem_cons, List.not_mem_nil, or_false] at hx
    · rcases hx with rfl | rfl | rfl | rfl <;> norm_num
    · rcases hx with rfl | rfl | rfl <;> norm_num
    · rcases hx with rfl | rfl <;> norm_num
    · subst hx; norm_num
  · exact searchLadder_first_hit query (radiiToTry r) r hsorted
  · intro h05 h1
    have hlad : radiiToTry (1/2 : ℚ) = [1/2, 0.75, 1, 1.5, 2] := by
      rcases radiiToTry_eq (1/2) with ⟨_, he⟩ | ⟨h', _, _⟩ | ⟨h', _, _⟩ | ⟨h', _, _⟩ | ⟨h', _⟩
      · exact he
      all_goals norm_num at h'
    have h05' : query (1/2) = 0 := by
      have h : (0.5 : ℚ) = 1/2 := by norm_num
      rwa [h] at h05
    have step : ∀ (rest : List ℚ) (u a : ℚ), query a = 0 →
        searchLadder query (a :: rest) u = searchLadder query rest a := by
      intro rest u a ha
      simp [searchLadder, ha]
    have hit : ∀ (rest : List ℚ) (u a : ℚ), 0 < query a →
        searchLadder query (a :: rest) u = a := by
      intro rest u a ha
      simp [searchLadder, ha]
    constructor
    · unfold effectiveRadius
      rw [hlad]
      by_cases h075 : 0 < query 0.75
      · rw [step _ _ _ h05', hit _ _ _ h075]
        norm_num
      · have h075' : query 0.75 = 0 := Nat.eq_zero_of_not_pos h075
        rw [step _ _ _ h05', step _ _ _ h075', hit _ _ _ h1]
    · intro h075
      unfold effectiveRadius
      rw [hlad]
      rw [step _ _ _ h05', step _ _ _ h075, hit _ _ _ h1]

/-- Witness for C2 (amended) at `r = 1/2` with a record source that is empty
below radius 1 and non-empty from radius 1 on. -/
theorem C2_radius_ladder_witness :
    (radiiToTry (1/2 : ℚ)).Sorted (· < ·) ∧
    effectiveRadius (fun x : ℚ => if x < 1 then 0 else 5) (1/2) = 1 := by
  have h := C2_radius_ladder (1/2) (by norm_num) (fun x : ℚ => if x < 1 then 0 else 5)
  refine ⟨h.1, ?_⟩
  exact (h.2.2.2.2.2 (by norm_num) (by norm_num)).2 (by norm_num)

/-- Toggling rewrites exactly the first comp carrying the requested id. -/
theorem toggleFirst_append (i : String) (l1 : List Comp) (c : Comp) (l2 : List Comp)
    (hl1 : ∀ x ∈ l1, x.id ≠ i) (hc : c.id = i) :
    toggleFirst i (l1 ++ c :: l2) = l1 ++ { c with included := !c.included } :: l2 := by
  induction l1 with
  | nil => simp [toggleFirst, hc]
  | cons a t ih =>
      have ha : a.id ≠ i := hl1 a (by simp)
      simp only [List.cons_append, toggleFirst, if_neg ha]
      exact congrArg (fun l => a :: l) (ih (fun x hx => hl1 x (by simp [hx])))

/-- A comp list containing a matching id makes the `any` guard succeed. -/
theorem any_id_of_mem {l : List Comp} {c : Comp} {i : String} (hm : c ∈ l) (hc : c.id = i) :
    l.any (fun x => x.id = i) = true :=
  List.any_eq_true.mpr ⟨c, hm, by simp [hc]⟩

/-- C5: toggling an identifier present in the case flips exactly that
comp's `included` flag, leaves every other comp and the property and
argument untouched, and toggling the same identifier twice restores both
the comp list and the recomputed mean included price. -/
theorem C5_toggle_self_inverse (st : AppState) (now i : String)
    (l1 : List Comp) (c : Comp) (l2 : List Comp)
    (hsplit : st.comps = l1 ++ c :: l2) (hc : c.id = i)
    (hl1 : ∀ x ∈ l1, x.id ≠ i) (hi : i ≠ "") :
    ∃ st', manageComps st now .toggle (some { id := some i }) =
        (.ok (compWorkspaceResult st'), st') ∧
      st'.comps = l1 ++ { c with included := !c.included } :: l2 ∧
      st'.property = st.property ∧ st'.argument = st.argument ∧
      (manageComps st' now .toggle (some { id := some i })).2 = st ∧
      meanIncludedPrice (manageComps st' now .toggle (some { id := some i })).2.comps =
        meanIncludedPrice st.comps := by
  have hmem : c ∈ st.comps := by rw [hsplit]; simp
  have hany : st.comps.any (fun x => x.id = i) = true := any_id_of_mem hmem hc
  have htr : truthyStr (some i) = true := by simp [truthyStr, hi]
  have hstep : manageComps st now .toggle (some { id := some i }) =
      (.ok (compWorkspaceResult { st with comps := toggleFirst i st.comps }),
        { st with comps := toggleFirst i st.comps }) := by
    simp [manageComps, htr, hany]
  refine ⟨{ st with comps := toggleFirst i st.comps }, hstep, ?_, rfl, rfl, ?_, ?_⟩
  · simp only [hsplit]
    exact toggleFirst_append i l1 c l2 hl1 hc
  · have hcomps' : toggleFirst i st.comps = l1 ++ { c with included := !c.included } :: l2 := by
      rw [hsplit]; exact toggleFirst_append i l1 c l2 hl1 hc
    have hmem' : ({ c with included := !c.included } : Comp) ∈ toggleFirst i st.comps := by
      rw [hcomps']; simp
    have hany' : (toggleFirst i st.comps).any (fun x => x.id = i) = true :=
      any_id_of_mem hmem' (by simpa using hc)
    have hstep' : manageComps { st with comps := toggleFirst i st.comps } now .toggle
        (some { id := some i }) =
        (.ok (compWorkspaceResult { st with comps := toggleFirst i (toggleFirst i st.comps) }),
          { st with comps := toggleFirst i (toggleFirst i st.comps) }) := by
      simp [manageComps, htr, hany']
    rw [hstep']
    have hback : toggleFirst i (toggleFirst i st.comps) = st.comps := by
      rw [hcomps', toggleFirst_append i l1 _ l2 hl1 (by simpa using hc), hsplit]
      simp [Bool.not_not]
    simp [hback]
  · have hcomps' : toggleFirst i st.comps = l1 ++ { c with included := !c.included } :: l2 := by
      rw [hsplit]; exact toggleFirst_append i l1 c l2 hl1 hc
    have hmem' : ({ c with included := !c.included } : Comp) ∈ toggleFirst i st.comps := by
      rw [hcomps']; simp
    have hany' : (toggleFirst i st.comps).any (fun x => x.id = i) = true :=
      any_id_of_mem hmem' (by simpa using hc)
    have hstep' : manageComps { st with comps := toggleFirst i st.comps } now .toggle
        (some { id := some i }) =
        (.ok (compWorkspaceResult { st with comps := toggleFirst i (toggleFirst i st.comps) }),
          { st with comps := toggleFirst i (toggleFirst i st.comps) }) := by
      simp [manageComps, htr, hany']
    rw [hstep']
    have hback : toggleFirst i (toggleFirst i st.comps) = st.comps := by
      rw [hcomps', toggleFirst_append i l1 _ l2 hl1 (by simpa using hc), hsplit]
      simp [Bool.not_not]
    simp [hback]

/-- Witness for C5 on a one-comp case. -/
theorem C5_toggle_self_inverse_witness :
    ∃ st', manageComps sampleState "99" .toggle (some { id := some "comp-1" }) =
        (.ok (compWorkspaceResult st'), st') ∧
      st'.comps = [] ++ { sampleComp with included := !sampleComp.included } :: [] ∧
      st'.property = sampleState.property ∧ st'.argument = sampleState.argument ∧
      (manageComps st' "99" .toggle (some { id := some "comp-1" })).2 = sampleState ∧
      meanIncludedPrice (manageComps st' "99" .toggle (some { id := some "comp-1" })).2.comps =
        meanIncludedPrice sampleState.comps :=
  C5_toggle_self_inverse sampleState "99" "comp-1" [] sampleComp [] rfl rfl
    (by simp) (by decide)

/-- C9: removing an identifier that is not in the comp list fails with the
`Comp not found` error and returns the case state exactly unchanged. -/
theorem C9_remove_not_found (st : AppState) (now i : String) (hi : i ≠ "")
    (hnot : ∀ x ∈ st.comps, x.id ≠ i) :
    manageComps st now .remove (some { id := some i }) =
      (.error ("Comp not found: " ++ i), st) := by
  have htr : truthyStr (some i) = true := by simp [truthyStr, hi]
  have hany : st.comps.any (fun x => x.id = i) = false := by
    rw [List.any_eq_false]
    intro x hx
    simp [hnot x hx]
  simp [manageComps, htr, hany]

/-- Witness for C9 on a non-empty case. -/
theorem C9_remove_not_found_witness :
    manageComps sampleState "99" .remove (some { id := some "comp-404" }) =
      (.error ("Comp not found: " ++ "comp-404"), sampleState) := by
  refine C9_remove_not_found sampleState "99" "comp-404" (by decide) ?_
  intro x hx
  simp only [sampleState, sampleComp, List.mem_singleton] at hx
  subst hx
  decide

/-- C10: `update`, `remove` and `toggle` without any comp identifier, and
`list` with any payload, return a normal success carrying the recomputed
aggregates and leave the case state unchanged. -/
theorem C10_missing_id_is_success (st : AppState) (now : String) (c : CompPayload)
    (hid : c.id = none) :
    manageComps st now .update (some c) = (.ok (compWorkspaceResult st), st) ∧
    manageComps st now .remove (some c) = (.ok (compWorkspaceResult st), st) ∧
    manageComps st now .toggle (some c) = (.ok (compWorkspaceResult st), st) ∧
    manageComps st now .update none = (.ok (compWorkspaceResult st), st) ∧
    manageComps st now .remove none = (.ok (compWorkspaceResult st), st) ∧
    manageComps st now .toggle none = (.ok (compWorkspaceResult st), st) ∧
    manageComps st now .list (some c) = (.ok (compWorkspaceResult st), st) ∧
    manageComps st now .list none = (.ok (compWorkspaceResult st), st) ∧
    (∀ p, st.property = some p → (compWorkspaceResult st).caseStrength =
      calculateCaseStrength p.assessedValue
        (if 0 < (includedComps st.comps).length
         then sumSalePrices (includedComps st.comps) / (includedComps st.comps).length
         else p.estimatedMarketValue)) := by
  have htr : truthyStr c.id = false := by simp [truthyStr, hid]
  refine ⟨by simp [manageComps, htr], by simp [manageComps, htr], by simp [manageComps, htr],
    by simp [manageComps], by simp [manageComps], by simp [manageComps],
    by simp [manageComps], by simp [manageComps], ?_⟩
  intro p hp
  simp [compWorkspaceResult, hp]

/-- Witness for C10 on a one-comp case. -/
theorem C10_missing_id_is_success_witness :
    manageComps sampleState "99" .toggle (some { notes := some "n" }) =
      (.ok (compWorkspaceResult sampleState), sampleState) :=
  (C10_missing_id_is_success sampleState "99" { notes := some "n" } rfl).2.2.1

/-- C8 counterexample: a payload supplying all three of address, sale date
and sale price — with a sale price of 0 — is rejected by `add`, so presence
of the three fields does not suffice for success. -/
theorem C8_counterexample :
    ({ samplePayload with salePrice := some 0 } : CompPayload).address.isSome = true ∧
    ({ samplePayload with salePrice := some 0 } : CompPayload).saleDate.isSome = true ∧
    ({ samplePayload with salePrice := some 0 } : CompPayload).salePrice.isSome = true ∧
    manageComps emptyState "99" .add
      (some { samplePayload with salePrice := some 0 }) =
      (.error addErrMsg, emptyState) := by
  refine ⟨rfl, rfl, rfl, ?_⟩
  simp [manageComps, truthyNum, samplePayload, emptyState]

/-- C8 (amended): `add` fails with the invalid-comparable error exactly when
the payload is missing (or JavaScript-falsy in) address, sale price or sale
date; with all three truthy it succeeds and appends exactly one new comp
with `included` defaulted to `true` and the omitted numeric fields and notes
defaulted. -/
theorem C8_add_validation (st : AppState) (now : String) (c : CompPayload) :
    (truthyStr c.address = false ∨ truthyNum c.salePrice = false ∨
        truthyStr c.saleDate = false →
      manageComps st now .add (some c) = (.error addErrMsg, st)) ∧
    manageComps st now .add none = (.error addErrMsg, st) ∧
    (truthyStr c.address = true → truthyNum c.salePrice = true →
      truthyStr c.saleDate = true →
      ∃ st', manageComps st now .add (some c) = (.ok (compWorkspaceResult st'), st') ∧
        st'.comps = st.comps ++ [mkNewComp c now] ∧
        st'.property = st.property ∧ st'.argument = st.argument ∧
        (mkNewComp c now).included = true ∧
        (mkNewComp c now).sqft = c.sqft.getD 0 ∧
        (mkNewComp c now).beds = c.beds.getD 0 ∧
        (mkNewComp c now).baths = c.baths.getD 0 ∧
        (mkNewComp c now).distance = c.distance.getD 0 ∧
        (mkNewComp c now).notes = c.notes.getD "") := by
  refine ⟨?_, by simp [manageComps], ?_⟩
  · intro h
    simp only [manageComps, if_pos h]
  · intro h1 h2 h3
    refine ⟨{ st with comps := st.comps ++ [mkNewComp c now] }, ?_, rfl, rfl, rfl,
      rfl, rfl, rfl, rfl, rfl, rfl⟩
    simp [manageComps, h1, h2, h3]

/-- String concatenation is left-cancellative. -/
theorem string_append_left_cancel {s a b : String} (h : s ++ a = s ++ b) : a = b := by
  have hd : (s ++ a).data = (s ++ b).data := by rw [h]
  rw [String.data_append, String.data_append] at hd
  cases a
  cases b
  simp only [List.append_cancel_left_eq] at hd
  exact congrArg String.mk hd

/-- The discovered comp id is `comp-` plus the parcel number whenever the
record carries one. -/
theorem recordToComp_id (hav : ℚ → ℚ → ℚ → ℚ → ℚ) (prop : Option Property)
    (now : String) (rec : SFRecord) (p : String) (h : rec.parcel_number = some p) :
    (recordToComp hav prop now rec).id = "comp-" ++ p := by
  simp [recordToComp, h]

/-- C3: with every record carrying a parcel number and the response free of
duplicate parcels, `find-comps` merges by stable identifier: existing
entries are kept as a prefix (first-write-wins, never overwritten), the
newly added comps all carry ids not previously in the case, a second
integration of the identical response adds zero new comparables, and the
comp list never acquires duplicate identifiers. -/
theorem C3_find_comps_idempotent (hav hav2 : ℚ → ℚ → ℚ → ℚ → ℚ) (now now2 : String)
    (st : AppState) (records : List SFRecord)
    (hparcel : ∀ rec ∈ records, rec.parcel_number ≠ none)
    (hnodup : ((records.filter (fun rec => nanPos (assessedOf rec))).map
      (fun rec => rec.parcel_number.getD "")).Nodup)
    (hids : (st.comps.map (·.id)).Nodup) :
    (∃ added, (integrateRecords hav now st records).comps = st.comps ++ added ∧
      ∀ a ∈ added, a.id ∉ st.comps.map (·.id)) ∧
    integrateRecords hav2 now2 (integrateRecords hav now st records) records =
      integrateRecords hav now st records ∧
    ((integrateRecords hav now st records).comps.map (·.id)).Nodup := by
  classical
  set P : SFRecord → Bool := fun rec => nanPos (assessedOf rec) with hP
  set F : SFRecord → Comp := recordToComp hav st.property now with hF
  set newComps : List Comp := (records.filter P).map F with hnew
  set ids : List String := st.comps.map (·.id) with hidsdef
  have hid_eq : ∀ rec ∈ records.filter P, ∀ (hv : ℚ → ℚ → ℚ → ℚ → ℚ)
      (pr : Option Property) (nw : String),
      (recordToComp hv pr nw rec).id = "comp-" ++ rec.parcel_number.getD "" := by
    intro rec hrec hv pr nw
    have hmem : rec ∈ records := List.mem_of_mem_filter hrec
    rcases Option.ne_none_iff_exists'.mp (hparcel rec hmem) with ⟨p, hp⟩
    rw [recordToComp_id hv pr nw rec p hp, hp]
    rfl
  have hcomps1 : (integrateRecords hav now st records).comps =
      st.comps ++ newComps.filter (fun c => c.id ∉ ids) := rfl
  have hprop1 : (integrateRecords hav now st records).property = st.property := rfl
  refine ⟨⟨newComps.filter (fun c => c.id ∉ ids), hcomps1, ?_⟩, ?_, ?_⟩
  · intro a ha
    have := List.of_mem_filter ha
    simpa using this
  · -- second integration: every candidate id is already present
    have hfilter2 : ∀ c ∈ (records.filter P).map
        (recordToComp hav2 (integrateRecords hav now st records).property now2),
        c.id ∈ (integrateRecords hav now st records).comps.map (·.id) := by
      intro c hc
      rcases List.mem_map.mp hc with ⟨rec, hrec, rfl⟩
      have hcid : (recordToComp hav2 (integrateRecords hav now st records).property
          now2 rec).id = "comp-" ++ rec.parcel_number.getD "" := hid_eq rec hrec _ _ _
      rw [hcid, hcomps1, List.map_append]
      by_cases hin : ("comp-" ++ rec.parcel_number.getD "") ∈ ids
      · exact List.mem_append_left _ hin
      · refine List.mem_append_right _ ?_
        refine List.mem_map.mpr ⟨F rec, ?_, (hid_eq rec hrec hav st.property now).symm ▸ rfl⟩
        refine List.mem_filter.mpr ⟨List.mem_map.mpr ⟨rec, hrec, rfl⟩, ?_⟩
        rw [hid_eq rec hrec hav st.property now]
        simpa using hin
    have hnil : ((records.filter P).map
        (recordToComp hav2 (integrateRecords hav now st records).property now2)).filter
        (fun c => c.id ∉ (integrateRecords hav now st records).comps.map (·.id)) = [] := by
      rw [List.filter_eq_nil]
      intro c hc
      simpa using hfilter2 c hc
    have hstep : integrateRecords hav2 now2 (integrateRecords hav now st records) records =
        { integrateRecords hav now st records with
          comps := (integrateRecords hav now st records).comps ++
            ((records.filter P).map
              (recordToComp hav2 (integrateRecords hav now st records).property now2)).filter
              (fun c => c.id ∉ (integrateRecords hav now st records).comps.map (·.id)) } := rfl
    rw [hstep, hnil]
    simp
  · rw [hcomps1, List.map_append]
    have hinj : Function.Injective (fun p : String => "comp-" ++ p) := by
      intro a b hab
      exact string_append_left_cancel hab
    have hmapid : newComps.map (·.id) = (records.filter P).map
        (fun rec => "comp-" ++ rec.parcel_number.getD "") := by
      rw [hnew, List.map_map]
      refine List.map_congr_left ?_
      intro rec hrec
      exact hid_eq rec hrec hav st.property now
    have hcomp : (((records.filter P).map (fun rec => rec.parcel_number.getD "")).map
        (fun p => "comp-" ++ p)) = (records.filter P).map
        (fun rec => "comp-" ++ rec.parcel_number.getD "") := by
      simp [List.map_map, Function.comp]
    have hnodup_new : (newComps.map (·.id)).Nodup := by
      rw [hmapid, ← hcomp]
      exact hnodup.map hinj
    have hsub : List.Sublist ((newComps.filter (fun c => c.id ∉ ids)).map (·.id))
        (newComps.map (·.id)) := (List.filter_sublist _).map _
    refine List.Nodup.append hids (hnodup_new.sublist hsub) ?_
    intro x hx hx2
    rcases List.mem_map.mp hx2 with ⟨c, hc, rfl⟩
    have := List.of_mem_filter hc
    simp only [decide_not, Bool.not_eq_true', decide_eq_false_iff_not] at this
    exact this hx

/-- Witness for C3: a single-record response integrated into the empty case. -/
theorem C3_find_comps_idempotent_witness :
    (∃ added, (integrateRecords (fun _ _ _ _ => 0) "99" emptyState [sampleRecord]).comps =
        emptyState.comps ++ added ∧
      ∀ a ∈ added, a.id ∉ emptyState.comps.map (·.id)) ∧
    integrateRecords (fun _ _ _ _ => 0) "100"
        (integrateRecords (fun _ _ _ _ => 0) "99" emptyState [sampleRecord]) [sampleRecord] =
      integrateRecords (fun _ _ _ _ => 0) "99" emptyState [sampleRecord] ∧
    ((integrateRecords (fun _ _ _ _ => 0) "99" emptyState [sampleRecord]).comps.map
      (·.id)).Nodup := by
  refine C3_find_comps_idempotent (fun _ _ _ _ => 0) (fun _ _ _ _ => 0) "99" "100"
    emptyState [sampleRecord] ?_ ?_ ?_
  · intro rec hrec
    simp only [List.mem_singleton] at hrec
    subst hrec
    simp [sampleRecord]
  · have e1 : jsParseFloat "500000" = some 500000 := by decide
    have e2 : jsParseFloat "0" = some 0 := by decide
    have e3 : assessedOf sampleRecord = some (500000 + 0 : ℚ) := by
      show nanAdd (jsParseFloat "500000") (jsParseFloat "0") = _
      rw [e1, e2]
      rfl
    have hpos : nanPos (assessedOf sampleRecord) = true := by
      rw [e3, show (500000 + 0 : ℚ) = 500000 by norm_num]
      decide
    have h : ([sampleRecord] : List SFRecord).filter (fun rec => nanPos (assessedOf rec)) =
        [sampleRecord] := by
      simp [List.filter_cons, hpos]
    rw [h]
    simp
  · have h0 : emptyState.comps.map (·.id) = [] := rfl
    rw [h0]
    exact List.nodup_nil

/-- Strings with equal character data are equal. -/
theorem str_eq_of_data {a b : String} (h : a.data = b.data) : a = b := by
  cases a
  cases b
  exact congrArg String.mk h

/-- A string with a non-empty left factor is non-empty. -/
theorem str_append_ne_empty {s : String} (t : String) (hs : s ≠ "") : s ++ t ≠ "" := by
  intro hc
  apply hs
  apply str_eq_of_data
  have hd : (s ++ t).data = ("" : String).data := by rw [hc]
  rw [String.data_append] at hd
  have : s.data ++ t.data = [] := hd
  exact (List.append_eq_nil.mp this).1

/-- `join("\n")` splits over a concatenation of non-empty line lists. -/
theorem joinLines_append (xs ys : List String) (hx : xs ≠ []) (hy : ys ≠ []) :
    joinLines (xs ++ ys) = joinLines xs ++ "\n" ++ joinLines ys := by
  induction xs with
  | nil => exact absurd rfl hx
  | cons a t ih =>
      cases t with
      | nil =>
          cases ys with
          | nil => exact absurd rfl hy
          | cons b u => rfl
      | cons a2 t2 =>
          have h1 : joinLines ((a :: a2 :: t2) ++ ys) =
              a ++ "\n" ++ joinLines ((a2 :: t2) ++ ys) := rfl
          rw [h1, ih (by simp)]
          show a ++ "\n" ++ (joinLines (a2 :: t2) ++ "\n" ++ joinLines ys) =
            (a ++ "\n" ++ joinLines (a2 :: t2)) ++ "\n" ++ joinLines ys
          apply str_eq_of_data
          simp [String.data_append, List.append_assoc]

/-- A joined line list headed by a non-empty line is non-empty. -/
theorem joinLines_ne_empty (s : String) (rest : List String) (hs : s ≠ "") :
    joinLines (s :: rest) ≠ "" := by
  cases rest with
  | nil => exact hs
  | cons b u =>
      show s ++ "\n" ++ joinLines (b :: u) ≠ ""
      exact str_append_ne_empty _ (str_append_ne_empty _ hs)

/-- Substring occurrence: the needle appears between two (possibly empty)
context strings. -/
def SubstrP (needle hay : String) : Prop :=
  ∃ x y, hay = x ++ needle ++ y

/-- Extending the context of a substring occurrence. -/
theorem SubstrP.extend {n m : String} (h : SubstrP n m) (l r : String) :
    SubstrP n (l ++ m ++ r) := by
  rcases h with ⟨x, y, rfl⟩
  refine ⟨l ++ x, y ++ r, ?_⟩
  apply str_eq_of_data
  simp [String.data_append, List.append_assoc]

/-- Every mapped list member occurs verbatim in the joined lines. -/
theorem joinLines_map_substr {α} (f : α → String) {c : α} :
    ∀ (l : List α), c ∈ l → SubstrP (f c) (joinLines (l.map f)) := by
  intro l
  induction l with
  | nil => intro h; exact absurd h (List.not_mem_nil c)
  | cons a t ih =>
      intro hmem
      rcases List.mem_cons.mp hmem with rfl | ht
      · cases t with
        | nil =>
            refine ⟨"", "", ?_⟩
            apply str_eq_of_data
            simp [joinLines, String.data_append]
        | cons b u =>
            refine ⟨"", "\n" ++ joinLines ((b :: u).map f), ?_⟩
            show joinLines (f c :: (b :: u).map f) = _
            have h1 : joinLines (f c :: (b :: u).map f) =
                f c ++ "\n" ++ joinLines ((b :: u).map f) := rfl
            rw [h1]
            apply str_eq_of_data
            simp [String.data_append, List.append_assoc]
      · have hne : t ≠ [] := by
          intro h0
          rw [h0] at ht
          exact absurd ht (List.not_mem_nil c)
        rcases ih ht with ⟨x, y, hxy⟩
        cases t with
        | nil => exact absurd rfl hne
        | cons b u =>
            refine ⟨f a ++ "\n" ++ x, y, ?_⟩
            show joinLines (f a :: (b :: u).map f) = _
            have h1 : joinLines (f a :: (b :: u).map f) =
                f a ++ "\n" ++ joinLines ((b :: u).map f) := rfl
            rw [h1, hxy]
            apply str_eq_of_data
            simp [String.data_append, List.append_assoc]

/-- A comparable-table row is never the empty string. -/
theorem compRow_ne_empty (c : Comp) : compRow c ≠ "" := by
  unfold compRow
  repeat apply str_append_ne_empty
  decide

set_option maxRecDepth 4000 in
/-- The packet document splits as a prefix, the narrative verbatim, and the
fixed tail; and every included comp's table row occurs in it verbatim. -/
theorem buildPacket_content (p : Property) (a : Argument) (included : List Comp)
    (strength : Strength) (avg : ℚ) (w : Bool) (hne : included ≠ [])
    (hnarr : a.narrative ≠ "") :
    ∃ pre, buildPacketMarkdown p included a strength avg w =
        pre ++ a.narrative ++ "\n" ++ joinLines (packetTailLines w) ∧
      ∀ c ∈ included, SubstrP (compRow c) (buildPacketMarkdown p included a strength avg w) := by
  have hR : joinLines (included.map compRow) ≠ "" := by
    obtain ⟨c, t, rfl⟩ : ∃ c t, included = c :: t := by
      cases included with
      | nil => exact absurd rfl hne
      | cons c t => exact ⟨c, t, rfl⟩
    show joinLines (compRow c :: t.map compRow) ≠ ""
    exact joinLines_ne_empty _ _ (compRow_ne_empty c)
  have hm1 : ("\n**Average Comparable Sale Price:** " ++ formatCurrency avg : String) ≠ "" :=
    str_append_ne_empty _ (by decide)
  have hm2 : ("\n## Value Argument" : String) ≠ "" := by decide
  have hfR : ([joinLines (included.map compRow)] : List String).filter
      (fun s => s ≠ "") = [joinLines (included.map compRow)] := by
    simp [hR]
  have hfM : (packetMidLines avg).filter (fun s => s ≠ "") = packetMidLines avg := by
    simp [packetMidLines, hm1, hm2]
  have hfnarr : ([a.narrative] : List String).filter (fun s => s ≠ "") = [a.narrative] := by
    simp [hnarr]
  have hfT : (packetTailLines w).filter (fun s => s ≠ "") = packetTailLines w := by
    cases w <;> decide
  have hA : packetPropLines p a strength =
      "# Prop 8 Informal Review — Filing Packet" ::
        (packetPropLines p a strength).tail := rfl
  have hfA_ne : (packetPropLines p a strength).filter (fun s => s ≠ "") ≠ [] := by
    rw [hA, List.filter_cons_of_pos (by decide)]
    exact List.cons_ne_nil _ _
  have e0 : buildPacketMarkdown p included a strength avg w =
      joinLines ((packetPropLines p a strength).filter (fun s => s ≠ "") ++
        ([joinLines (included.map compRow)] ++ (packetMidLines avg ++
          ([a.narrative] ++ packetTailLines w)))) := by
    unfold buildPacketMarkdown
    simp only [List.filter_append, List.append_assoc]
    rw [hfR, hfM, hfnarr, hfT]
  have e1 : buildPacketMarkdown p included a strength avg w =
      joinLines ((packetPropLines p a strength).filter (fun s => s ≠ "")) ++ "\n" ++
        joinLines ([joinLines (included.map compRow)] ++ (packetMidLines avg ++
          ([a.narrative] ++ packetTailLines w))) := by
    rw [e0]
    exact joinLines_append _ _ hfA_ne (by simp)
  refine ⟨joinLines ((packetPropLines p a strength).filter (fun s => s ≠ "")) ++ "\n" ++
    joinLines (included.map compRow) ++ "\n" ++
    joinLines (packetMidLines avg) ++ "\n", ?_, ?_⟩
  · rw [e1]
    apply str_eq_of_data
    simp [joinLines, packetMidLines, packetTailLines, String.data_append, List.append_assoc]
  · intro c hc
    have hsub : SubstrP (compRow c) (joinLines (included.map compRow)) :=
      joinLines_map_substr compRow included hc
    have e2 : buildPacketMarkdown p included a strength avg w =
        (joinLines ((packetPropLines p a strength).filter (fun s => s ≠ "")) ++ "\n") ++
          joinLines (included.map compRow) ++
          ("\n" ++ joinLines (packetMidLines avg ++ ([a.narrative] ++ packetTailLines w))) := by
      rw [e1]
      apply str_eq_of_data
      simp [joinLines, packetMidLines, String.data_append, List.append_assoc]
    rw [e2]
    exact hsub.extend _ _

/-- C6: `generate-packet` and `export-packet` fail exactly when no property
is active, no comparable is included, or no argument has been drafted; when
all three prerequisites hold both emit the same document, which contains
the drafted narrative verbatim followed by the fixed checklist and
submission instructions, and one comparable-table row for every included
comp. -/
theorem C6_packet_prerequisites (st : AppState) (w : Bool) :
    ((∃ msg, generatePacket st w = .error msg) ↔
      (st.property = none ∨ includedComps st.comps = [] ∨ st.argument = none)) ∧
    ((∃ msg, exportPacket st w = .error msg) ↔
      (st.property = none ∨ includedComps st.comps = [] ∨ st.argument = none)) ∧
    (∀ p a, st.property = some p → st.argument = some a →
      includedComps st.comps ≠ [] → a.narrative ≠ "" →
      ∃ doc pre, generatePacket st w = .packet doc ∧ exportPacket st w = .packet doc ∧
        doc = pre ++ a.narrative ++ "\n" ++ joinLines (packetTailLines w) ∧
        ∀ c ∈ includedComps st.comps, SubstrP (compRow c) doc) := by
  obtain ⟨sp, comps, sa⟩ := st
  have hsucc : ∀ p a, sp = some p → sa = some a → includedComps comps ≠ [] →
      generatePacket (AppState.mk sp comps sa) w = .packet
        (buildPacketMarkdown p (includedComps comps) a
          (calculateCaseStrength p.assessedValue a.declaredMarketValue)
          (((jsRound (sumSalePrices (includedComps comps) /
            ((includedComps comps).length : ℚ))) : ℤ) : ℚ) w) ∧
      exportPacket (AppState.mk sp comps sa) w = .packet
        (buildPacketMarkdown p (includedComps comps) a
          (calculateCaseStrength p.assessedValue a.declaredMarketValue)
          (((jsRound (sumSalePrices (includedComps comps) /
            ((includedComps comps).length : ℚ))) : ℤ) : ℚ) w) := by
    rintro p a rfl rfl hne
    have hlen : ¬ (includedComps comps).length = 0 := by
      simpa [List.length_eq_zero] using hne
    constructor
    · simp only [generatePacket]
      rw [if_neg hlen]
    · simp only [exportPacket]
      rw [if_neg hlen]
  refine ⟨?_, ?_, ?_⟩
  · constructor
    · rintro ⟨msg, hmsg⟩
      by_contra hnot
      push_neg at hnot
      obtain ⟨hp, hinc, ha⟩ := hnot
      obtain ⟨p, rfl⟩ := Option.ne_none_iff_exists'.mp hp
      obtain ⟨a, rfl⟩ := Option.ne_none_iff_exists'.mp ha
      rw [(hsucc p a rfl rfl hinc).1] at hmsg
      exact GPResult.noConfusion hmsg
    · intro h
      rcases h with h | hinc | h
      · have hp : sp = none := h
        subst hp
        exact ⟨"No property on file. Use lookup-property or manage-property first.",
          by simp [generatePacket]⟩
      · cases sp with
        | none => exact ⟨"No property on file. Use lookup-property or manage-property first.",
            by simp [generatePacket]⟩
        | some p =>
            replace hinc : includedComps comps = [] := hinc
            exact ⟨"No comparable sales selected. Use find-comps or manage-comps first.",
              by simp only [generatePacket]; rw [if_pos (by simp [hinc])]⟩
      · have ha : sa = none := h
        subst ha
        cases sp with
        | none => exact ⟨"No property on file. Use lookup-property or manage-property first.",
            by simp [generatePacket]⟩
        | some p =>
            by_cases hinc : includedComps comps = []
            · exact ⟨"No comparable sales selected. Use find-comps or manage-comps first.",
                by simp only [generatePacket]; rw [if_pos (by simp [hinc])]⟩
            · have hlen : ¬ (includedComps comps).length = 0 := by
                simpa [List.length_eq_zero] using hinc
              exact ⟨"No value argument drafted. Use generate-argument first.",
                by simp only [generatePacket]; rw [if_neg hlen]⟩
  · constructor
    · rintro ⟨msg, hmsg⟩
      by_contra hnot
      push_neg at hnot
      obtain ⟨hp, hinc, ha⟩ := hnot
      obtain ⟨p, rfl⟩ := Option.ne_none_iff_exists'.mp hp
      obtain ⟨a, rfl⟩ := Option.ne_none_iff_exists'.mp ha
      rw [(hsucc p a rfl rfl hinc).2] at hmsg
      exact GPResult.noConfusion hmsg
    · intro h
      rcases h with h | hinc | h
      · have hp : sp = none := h
        subst hp
        exact ⟨"No property on file. Build your case first.", by simp [exportPacket]⟩
      · cases sp with
        | none => exact ⟨"No property on file. Build your case first.",
            by simp [exportPacket]⟩
        | some p =>
            replace hinc : includedComps comps = [] := hinc
            exact ⟨"No comparable sales selected.",
              by simp only [exportPacket]; rw [if_pos (by simp [hinc])]⟩
      · have ha : sa = none := h
        subst ha
        cases sp with
        | none => exact ⟨"No property on file. Build your case first.",
            by simp [exportPacket]⟩
        | some p =>
            by_cases hinc : includedComps comps = []
            · exact ⟨"No comparable sales selected.",
                by simp only [exportPacket]; rw [if_pos (by simp [hinc])]⟩
            · have hlen : ¬ (includedComps comps).length = 0 := by
                simpa [List.length_eq_zero] using hinc
              exact ⟨"No value argument drafted. Use generate-argument first.",
                by simp only [exportPacket]; rw [if_neg hlen]⟩
  · intro p a hp ha hne hnarr
    replace hp : sp = some p := hp
    replace ha : sa = some a := ha
    replace hne : includedComps comps ≠ [] := hne
    obtain ⟨pre, hdoc, hrows⟩ := buildPacket_content p a (includedComps comps)
      (calculateCaseStrength p.assessedValue a.declaredMarketValue)
      (((jsRound (sumSalePrices (includedComps comps) /
        ((includedComps comps).length : ℚ))) : ℤ) : ℚ) w hne hnarr
    exact ⟨_, pre, (hsucc p a hp ha hne).1, (hsucc p a hp ha hne).2, hdoc, hrows⟩

/-- Witness for C6 on a complete sample case. -/
theorem C6_packet_prerequisites_witness :
    ∃ doc pre,
      generatePacket { sampleState2 with argument := some sampleArgument } true = .packet doc ∧
      exportPacket { sampleState2 with argument := some sampleArgument } true = .packet doc ∧
      doc = pre ++ sampleArgument.narrative ++ "\n" ++ joinLines (packetTailLines true) ∧
      ∀ c ∈ includedComps { sampleState2 with argument := some sampleArgument }.comps,
        SubstrP (compRow c) doc := by
  refine (C6_packet_prerequisites { sampleState2 with argument := some sampleArgument }
    true).2.2 sampleProperty sampleArgument rfl rfl (by decide) (by decide)

/-- Folding the sale prices equals summing the mapped prices. -/
theorem sumSalePrices_eq_sum (l : List Comp) :
    sumSalePrices l = (l.map (·.salePrice)).sum := by
  have h : ∀ (l : List Comp) (a : ℚ),
      l.foldl (fun s c => s + c.salePrice) a = a + (l.map (·.salePrice)).sum := by
    intro l
    induction l with
    | nil => intro a; simp
    | cons c t ih =>
        intro a
        simp only [List.foldl_cons, List.map_cons, List.sum_cons, ih]
        ring
  simpa using h l 0

/-- C7: with an active property and at least one included comp,
`generate-argument` called without an explicit declared value succeeds and
stores an argument whose declared market value is the rounded mean of the
included sale prices; for exactly two included comps priced 900000 and
1000000 the declared value is 950000. -/
theorem C7_default_declared_value (st : AppState) (p : Property) (tone : Tone)
    (hp : st.property = some p) (hne : includedComps st.comps ≠ []) :
    (∃ n, (generateArgument st tone none).1 = .markdown n) ∧
    (∃ a, (generateArgument st tone none).2.argument = some a ∧
      a.declaredMarketValue = ((jsRound (sumSalePrices (includedComps st.comps) /
        ((includedComps st.comps).length : ℚ)) : ℤ) : ℚ) ∧ a.tone = tone) ∧
    ((includedComps st.comps).map (·.salePrice) = [900000, 1000000] →
      ∃ a, (generateArgument st tone none).2.argument = some a ∧
        a.declaredMarketValue = 950000) := by
  obtain ⟨sp, comps, arg⟩ := st
  have hp' : sp = some p := hp
  subst hp'
  have hlen : ¬ (includedComps
      (AppState.mk (some p) comps arg).comps).length = 0 := by
    simpa [List.length_eq_zero] using hne
  have key : ∃ n, generateArgument (AppState.mk (some p) comps arg) tone none =
      (.markdown n, AppState.mk (some p) comps (some (Argument.mk n
        (((jsRound (sumSalePrices (includedComps comps) /
          ((includedComps comps).length : ℚ))) : ℤ) : ℚ) tone))) := by
    apply Exists.intro
    simp only [generateArgument]
    rw [if_neg hlen]
  rcases key with ⟨n, hkey⟩
  refine ⟨⟨n, by rw [hkey]⟩, ⟨_, by rw [hkey], rfl, rfl⟩, ?_⟩
  intro hmap
  replace hmap : (includedComps comps).map (·.salePrice) = [900000, 1000000] := hmap
  refine ⟨_, by rw [hkey], ?_⟩
  have hsum : sumSalePrices (includedComps comps) = 1900000 := by
    rw [sumSalePrices_eq_sum, hmap]
    norm_num
  have hlen2 : (includedComps comps).length = 2 := by
    have := congrArg List.length hmap
    simpa using this
  show ((jsRound (sumSalePrices (includedComps comps) /
      ((includedComps comps).length : ℚ)) : ℤ) : ℚ) = 950000
  rw [hsum, hlen2]
  have hval : ((1900000 : ℚ) / ((2 : ℕ) : ℚ)) = 950000 := by norm_num
  rw [hval]
  have hfloor : jsRound (950000 : ℚ) = 950000 := by
    unfold jsRound
    rw [Int.floor_eq_iff]
    norm_num
  rw [hfloor]
  norm_num

/-- Witness for C7 on the two-comp sample case. -/
theorem C7_default_declared_value_witness :
    ∃ a, (generateArgument sampleState2 .neutral none).2.argument = some a ∧
      a.declaredMarketValue = 950000 := by
  refine (C7_default_declared_value sampleState2 sampleProperty .neutral rfl
    (by decide)).2.2 ?_
  decide

/-- Witness for C8 (amended): a fully supplied payload is appended. -/
theorem C8_add_validation_witness :
    ∃ st', manageComps emptyState "99" .add (some samplePayload) =
        (.ok (compWorkspaceResult st'), st') ∧
      st'.comps = emptyState.comps ++ [mkNewComp samplePayload "99"] ∧
      st'.property = emptyState.property ∧ st'.argument = emptyState.argument ∧
      (mkNewComp samplePayload "99").included = true ∧
      (mkNewComp samplePayload "99").sqft = samplePayload.sqft.getD 0 ∧
      (mkNewComp samplePayload "99").beds = samplePayload.beds.getD 0 ∧
      (mkNewComp samplePayload "99").baths = samplePayload.baths.getD 0 ∧
      (mkNewComp samplePayload "99").distance = samplePayload.distance.getD 0 ∧
      (mkNewComp samplePayload "99").notes = samplePayload.notes.getD "" :=
  (C8_add_validation emptyState "99" samplePayload).2.2 (by decide) (by decide) (by decide)

/-! Character-class facts used by the address-normalizer development. -/

/-- Two characters on which a boolean predicate disagrees are distinct. -/
theorem ne_of_pred {c d : Char} (p : Char → Bool) (h : p c = true) (hd : p d = false) :
    c ≠ d := fun he => by rw [he, hd] at h; cases h

/-- A character distinct from the four whitespace characters is not
whitespace. -/
theorem not_ws_of_nonws {c : Char} (hs : c ≠ ' ') (ht : c ≠ '\t') (hr : c ≠ '\r')
    (hn : c ≠ '\n') : isWs c = false := by
  unfold isWs Char.isWhitespace
  simp [hs, ht, hr, hn]

/-- ASCII digits are not whitespace. -/
theorem digit_not_ws {c : Char} (h : c.isDigit = true) : isWs c = false :=
  not_ws_of_nonws (ne_of_pred Char.isDigit h (by decide))
    (ne_of_pred Char.isDigit h (by decide)) (ne_of_pred Char.isDigit h (by decide))
    (ne_of_pred Char.isDigit h (by decide))

/-- Upper-case ASCII letters are not whitespace. -/
theorem upper_not_ws {c : Char} (h : c.isUpper = true) : isWs c = false :=
  not_ws_of_nonws (ne_of_pred Char.isUpper h (by decide))
    (ne_of_pred Char.isUpper h (by decide)) (ne_of_pred Char.isUpper h (by decide))
    (ne_of_pred Char.isUpper h (by decide))

/-- An ASCII digit is unchanged by `toUpper`. -/
theorem toUpper_of_digit {c : Char} (h : c.isDigit = true) : c.toUpper = c := by
  unfold Char.toUpper
  simp only [Char.isDigit] at h
  rw [Bool.and_eq_true, decide_eq_true_eq, decide_eq_true_eq] at h
  have h2 : c.val.toNat ≤ 57 := h.2
  have hn : ¬ (97 ≤ Char.toNat c ∧ Char.toNat c ≤ 122) := by
    intro hc
    have he : Char.toNat c = c.val.toNat := rfl
    omega
  simp [hn]

/-- An upper-case ASCII letter is not a digit. -/
theorem upper_not_digit {c : Char} (h : c.isUpper = true) : c.isDigit = false := by
  simp only [Char.isUpper] at h
  rw [Bool.and_eq_true, decide_eq_true_eq, decide_eq_true_eq] at h
  have h1 : 65 ≤ c.val.toNat := h.1
  by_contra hd
  rw [Bool.not_eq_false] at hd
  simp only [Char.isDigit] at hd
  rw [Bool.and_eq_true, decide_eq_true_eq, decide_eq_true_eq] at hd
  have h2 : c.val.toNat ≤ 57 := hd.2
  omega

/-! Whitespace-collapsing lemmas. -/

/-- Collapsing steps over a non-whitespace character, resetting the run
flag. -/
theorem collapseWsAux_nonws_cons (b : Bool) {c : Char} (l : List Char)
    (hc : isWs c = false) :
    collapseWsAux b (c :: l) = c :: collapseWsAux false l := by
  show (if isWs c = true then
      if b = true then collapseWsAux true l else ' ' :: collapseWsAux true l
    else c :: collapseWsAux false l) = c :: collapseWsAux false l
  rw [hc]
  simp

/-- Collapsing with the run flag set swallows a space. -/
theorem collapseWsAux_true_space (l : List Char) :
    collapseWsAux true (' ' :: l) = collapseWsAux true l := rfl

/-- Collapsing without the run flag emits a single space and sets the
flag. -/
theorem collapseWsAux_false_space (l : List Char) :
    collapseWsAux false (' ' :: l) = ' ' :: collapseWsAux true l := rfl

/-- Collapsing passes an all-non-whitespace word through unchanged. -/
theorem collapseWsAux_false_append {w : List Char} (l : List Char)
    (hw : ∀ c ∈ w, isWs c = false) :
    collapseWsAux false (w ++ l) = w ++ collapseWsAux false l := by
  induction w with
  | nil => rfl
  | cons c w ih =>
      rw [List.cons_append, collapseWsAux_nonws_cons false _ (hw c (by simp)),
        ih (fun d hd => hw d (by simp [hd]))]
      rfl

/-- Collapsing in either flag state passes a non-empty all-non-whitespace
word through and resets the flag. -/
theorem collapseWsAux_prefix_word {w : List Char} (b : Bool) (l : List Char)
    (hne : w ≠ []) (hw : ∀ c ∈ w, isWs c = false) :
    collapseWsAux b (w ++ l) = w ++ collapseWsAux false l := by
  cases w with
  | nil => exact absurd rfl hne
  | cons c w =>
      rw [List.cons_append, collapseWsAux_nonws_cons b _ (hw c (by simp)),
        collapseWsAux_false_append l (fun d hd => hw d (by simp [hd]))]
      rfl

/-- With the run flag set, a whole run of spaces is swallowed. -/
theorem collapseWsAux_true_spaces (k : ℕ) (l : List Char) :
    collapseWsAux true (List.replicate k ' ' ++ l) = collapseWsAux true l := by
  induction k with
  | zero => rfl
  | succ k ih => rw [List.replicate_succ, List.cons_append, collapseWsAux_true_space, ih]

/-! Trimming lemmas. -/

/-- `dropWhile` keeps a list whose head is not whitespace. -/
theorem dropWhile_ws_eq_self {l : List Char}
    (h : ∀ c, l.head? = some c → isWs c = false) : l.dropWhile isWs = l := by
  cases l with
  | nil => rfl
  | cons c t => rw [List.dropWhile_cons_of_neg (by simp [h c rfl])]

/-- Right-trimming keeps a list whose last character is not whitespace. -/
theorem jsTrimRight_eq_self {l : List Char}
    (h : ∀ c, l.getLast? = some c → isWs c = false) : jsTrimRight l = l := by
  unfold jsTrimRight
  cases hrev : l.reverse with
  | nil =>
      have hl : l = [] := by
        have h2 := congrArg List.reverse hrev
        simpa using h2
      simp [hl]
  | cons c t =>
      have hc : isWs c = false := h c (by rw [← List.head?_reverse, hrev]; rfl)
      rw [List.dropWhile_cons_of_neg (by simp [hc]), ← hrev, List.reverse_reverse]

/-- Trimming keeps a list whose first and last characters are not
whitespace. -/
theorem jsTrim_eq_self {l : List Char} (hh : ∀ c, l.head? = some c → isWs c = false)
    (hl : ∀ c, l.getLast? = some c → isWs c = false) : jsTrim l = l := by
  unfold jsTrim jsTrimLeft
  rw [dropWhile_ws_eq_self hh, jsTrimRight_eq_self hl]

/-! Suffix-token scan lemmas. -/

/-- Every suffix token starts with an upper-case letter. -/
theorem tokens_head_upper : ∀ t ∈ suffixTokens, t.data.head?.any Char.isUpper = true := by
  decide

/-- Every suffix token is all ASCII letters. -/
theorem tokens_alpha : ∀ t ∈ suffixTokens, t.data.all Char.isAlpha = true := by decide

/-- No suffix token matches at a position whose first character is a
digit. -/
theorem findTok_digit_head {c : Char} (h : c.isDigit = true) (rest : List Char) :
    findTok (c :: rest) = none := by
  unfold findTok
  rw [List.find?_eq_none]
  intro t ht hp
  have hhead := tokens_head_upper t ht
  cases hd : t.data with
  | nil => rw [hd] at hhead; cases hhead
  | cons t0 ts =>
      rw [hd] at hp hhead
      have hup : t0.isUpper = true := by simpa using hhead
      have hp' : (decide (c.toUpper = t0) && ciPrefix ts rest) = true := hp
      rw [Bool.and_eq_true] at hp'
      have hc : c.toUpper = t0 := of_decide_eq_true hp'.1
      rw [toUpper_of_digit h] at hc
      subst hc
      rw [upper_not_digit hup] at h
      cases h

/-- A case-insensitive prefix match over an append that is at least as long
as the left part restricts to the left part. -/
theorem ciPrefix_append_left (t : List Char) : ∀ (x y : List Char),
    ciPrefix t (x ++ y) = true → t.length ≤ x.length → ciPrefix t x = true := by
  induction t with
  | nil => intro x y _ _; rfl
  | cons c ts ih =>
      intro x y hp hl
      cases x with
      | nil => simp at hl
      | cons a xs =>
          have hp' : (decide (a.toUpper = c) && ciPrefix ts (xs ++ y)) = true := hp
          rw [Bool.and_eq_true] at hp'
          have hrec := ih xs y hp'.2 (by simp only [List.length_cons] at hl; omega)
          show (decide (a.toUpper = c) && ciPrefix ts xs) = true
          rw [Bool.and_eq_true]
          exact ⟨hp'.1, hrec⟩

/-- An all-letter pattern cannot match across a space: the match stays
inside the part before the space. -/
theorem ciPrefix_over_space (t : List Char) : ∀ (x y : List Char),
    ciPrefix t (x ++ ' ' :: y) = true → t.all Char.isAlpha = true →
    t.length ≤ x.length := by
  induction t with
  | nil => intro x y _ _; simp
  | cons c ts ih =>
      intro x y hp ha
      rw [List.all_cons, Bool.and_eq_true] at ha
      cases x with
      | nil =>
          have hp' : (decide ((' ').toUpper = c) && ciPrefix ts y) = true := hp
          rw [Bool.and_eq_true] at hp'
          have hc : (' ').toUpper = c := of_decide_eq_true hp'.1
          have hcs : c = ' ' := by rw [← hc]; rfl
          subst hcs
          exact absurd ha.1 (by decide)
      | cons a xs =>
          have hp' : (decide (a.toUpper = c) && ciPrefix ts (xs ++ ' ' :: y)) = true := hp
          rw [Bool.and_eq_true] at hp'
          have hrec := ih xs y hp'.2 ha.2
          simp only [List.length_cons]
          omega

/-- No suffix token matches at any position inside a street name free of
embedded tokens, even with a space and more text following. -/
theorem findTok_name_part {name : List Char} (hnotok : containsTok name = false)
    {zs : List Char} (hzs : List.IsSuffix zs name) (rest : List Char) :
    findTok (zs ++ ' ' :: rest) = none := by
  unfold findTok
  rw [List.find?_eq_none]
  intro t ht hp
  by_cases hlen : t.data.length ≤ zs.length
  · have hpz := ciPrefix_append_left t.data zs (' ' :: rest) hp hlen
    have hct : containsTok name = true := by
      unfold containsTok
      rw [List.any_eq_true]
      refine ⟨zs, ?_, ?_⟩
      · rw [List.mem_tails]
        exact hzs
      · rw [List.any_eq_true]
        exact ⟨t, ht, hpz⟩
    rw [hct] at hnotok
    cases hnotok
  · have := ciPrefix_over_space t.data zs rest hp (tokens_alpha t ht)
    omega

/-- If no token matches after leading whitespace, the `\s*(token)` attempt
fails. -/
theorem trySuffix_eq_none_of_findTok {l : List Char}
    (h : findTok (l.dropWhile isWs) = none) : trySuffix l = none := by
  unfold trySuffix
  dsimp only
  rw [h]

/-- The suffix attempt fails on any position headed by a digit. -/
theorem trySuffix_none_digit {c : Char} (hc : c.isDigit = true) (rest : List Char) :
    trySuffix (c :: rest) = none := by
  apply trySuffix_eq_none_of_findTok
  rw [List.dropWhile_cons_of_neg (by simp [digit_not_ws hc])]
  exact findTok_digit_head hc rest

/-- The suffix attempt succeeds on a space followed by a suffix token
(other than the shadowed `AVE`) and arbitrary non-whitespace-headed
text. -/
theorem trySuffix_hit {T : String} (hT : T ∈ suffixTokens) (hTne : T ≠ "AVE")
    (u : List Char) (hu : u.dropWhile isWs = u) :
    trySuffix (' ' :: (T.data ++ u)) = some (T, u) := by
  fin_cases hT
  · have h : trySuffix (' ' :: ("ST".data ++ u)) = some ("ST", u.dropWhile isWs) := rfl
    rw [h, hu]
  · have h : trySuffix (' ' :: ("AV".data ++ u)) = some ("AV", u.dropWhile isWs) := rfl
    rw [h, hu]
  · exact absurd rfl hTne
  · have h : trySuffix (' ' :: ("BLVD".data ++ u)) = some ("BLVD", u.dropWhile isWs) := rfl
    rw [h, hu]
  · have h : trySuffix (' ' :: ("DR".data ++ u)) = some ("DR", u.dropWhile isWs) := rfl
    rw [h, hu]
  · have h : trySuffix (' ' :: ("CT".data ++ u)) = some ("CT", u.dropWhile isWs) := rfl
    rw [h, hu]
  · have h : trySuffix (' ' :: ("PL".data ++ u)) = some ("PL", u.dropWhile isWs) := rfl
    rw [h, hu]
  · have h : trySuffix (' ' :: ("WAY".data ++ u)) = some ("WAY", u.dropWhile isWs) := rfl
    rw [h, hu]
  · have h : trySuffix (' ' :: ("LN".data ++ u)) = some ("LN", u.dropWhile isWs) := rfl
    rw [h, hu]
  · have h : trySuffix (' ' :: ("RD".data ++ u)) = some ("RD", u.dropWhile isWs) := rfl
    rw [h, hu]
  · have h : trySuffix (' ' :: ("TER".data ++ u)) = some ("TER", u.dropWhile isWs) := rfl
    rw [h, hu]
  · have h : trySuffix (' ' :: ("CIR".data ++ u)) = some ("CIR", u.dropWhile isWs) := rfl
    rw [h, hu]
  · have h : trySuffix (' ' :: ("HWY".data ++ u)) = some ("HWY", u.dropWhile isWs) := rfl
    rw [h, hu]

/-- Scan step: a successful suffix attempt right after the current
character ends the scan. -/
theorem suffixSplitGo_cons_hit {acc : List Char} {c : Char} {cs : List Char}
    {t : String} {rest : List Char} (h : trySuffix cs = some (t, rest)) :
    suffixSplitGo acc (c :: cs) = some (acc ++ [c], t, rest) := by
  show (match trySuffix cs with
    | some (t, rest) => some (acc ++ [c], t, rest)
    | none => suffixSplitGo (acc ++ [c]) cs) = some (acc ++ [c], t, rest)
  rw [h]

/-- Scan step: a failed suffix attempt extends the accumulated group one. -/
theorem suffixSplitGo_cons_miss {acc : List Char} {c : Char} {cs : List Char}
    (h : trySuffix cs = none) :
    suffixSplitGo acc (c :: cs) = suffixSplitGo (acc ++ [c]) cs := by
  show (match trySuffix cs with
    | some (t, rest) => some (acc ++ [c], t, rest)
    | none => suffixSplitGo (acc ++ [c]) cs) = suffixSplitGo (acc ++ [c]) cs
  rw [h]

/-- The left-to-right lazy scan finds the split at `A ++ ys` when no
non-empty proper suffix of `A` yields an earlier match and `ys` itself
matches. -/
theorem suffixSplitGo_to_hit {T : String} {u : List Char} {ys : List Char}
    (hhit : trySuffix ys = some (T, u)) : ∀ (A acc : List Char),
    A ≠ [] →
    (∀ zs, zs ≠ [] → List.IsSuffix zs A → zs ≠ A → trySuffix (zs ++ ys) = none) →
    suffixSplitGo acc (A ++ ys) = some (acc ++ A, T, u) := by
  intro A
  induction A with
  | nil => intro acc hne _; exact absurd rfl hne
  | cons a A ih =>
      intro acc _ hmiss
      rw [List.cons_append]
      cases A with
      | nil =>
          rw [suffixSplitGo_cons_hit (by simpa using hhit)]
      | cons b B =>
          have hnone : trySuffix ((b :: B) ++ ys) = none :=
            hmiss (b :: B) (by simp) ⟨[a], rfl⟩ (by simp)
          rw [suffixSplitGo_cons_miss hnone]
          have hrec := ih (acc ++ [a]) (by simp)
            (fun zs hne hsuf _ => by
              refine hmiss zs hne ?_ ?_
              · obtain ⟨w, hw⟩ := hsuf
                exact ⟨a :: w, by rw [← hw]; rfl⟩
              · intro he
                have hle := hsuf.length_le
                rw [he] at hle
                simp at hle)
          rw [hrec]
          simp

/-! Four-digit-group scan lemmas. -/

/-- The group scan skips a non-digit character. -/
theorem scan4_nondigit_cons {a : Char} (ha : a.isDigit = false) (l : List Char) :
    scan4 (a :: l) = scan4 l := by
  cases l with
  | nil => rfl
  | cons b l2 =>
      cases l2 with
      | nil => rfl
      | cons c l3 =>
          cases l3 with
          | nil => rfl
          | cons d rest =>
              show (if a.isDigit && b.isDigit && c.isDigit && d.isDigit then
                  [a, b, c, d] :: scan4 rest
                else scan4 (b :: c :: d :: rest)) = scan4 (b :: c :: d :: rest)
              rw [ha]
              simp

/-- The group scan consumes a leading four-digit group. -/
theorem scan4_group {g : List Char} (hlen : g.length = 4)
    (hg : ∀ c ∈ g, c.isDigit = true) (rest : List Char) :
    scan4 (g ++ rest) = g :: scan4 rest := by
  cases g with
  | nil => simp only [List.length_nil] at hlen; omega
  | cons a g1 =>
  cases g1 with
  | nil => simp only [List.length_cons, List.length_nil] at hlen; omega
  | cons b g2 =>
  cases g2 with
  | nil => simp only [List.length_cons, List.length_nil] at hlen; omega
  | cons c g3 =>
  cases g3 with
  | nil => simp only [List.length_cons, List.length_nil] at hlen; omega
  | cons d g4 =>
  cases g4 with
  | cons e g5 => simp only [List.length_cons] at hlen; omega
  | nil =>
      show (if a.isDigit && b.isDigit && c.isDigit && d.isDigit then
          [a, b, c, d] :: scan4 rest
        else scan4 (b :: c :: d :: rest)) = [a, b, c, d] :: scan4 rest
      rw [hg a (by simp), hg b (by simp), hg c (by simp), hg d (by simp)]
      simp

/-- The group scan finds nothing in a digit-free list. -/
theorem scan4_no_digit {l : List Char} (h : ∀ c ∈ l, c.isDigit = false) :
    scan4 l = [] := by
  induction l with
  | nil => rfl
  | cons a t ih =>
      rw [scan4_nondigit_cons (h a (by simp)) t]
      exact ih (fun c hc => h c (by simp [hc]))

/-- The group removal keeps a non-digit character. -/
theorem remove4_nondigit_cons {a : Char} (ha : a.isDigit = false) (l : List Char) :
    remove4 (a :: l) = a :: remove4 l := by
  cases l with
  | nil => rfl
  | cons b l2 =>
      cases l2 with
      | nil => rfl
      | cons c l3 =>
          cases l3 with
          | nil => rfl
          | cons d rest =>
              show (if a.isDigit && b.isDigit && c.isDigit && d.isDigit then
                  remove4 rest
                else a :: remove4 (b :: c :: d :: rest)) =
                a :: remove4 (b :: c :: d :: rest)
              rw [ha]
              simp

/-- The group removal deletes a leading four-digit group. -/
theorem remove4_group {g : List Char} (hlen : g.length = 4)
    (hg : ∀ c ∈ g, c.isDigit = true) (rest : List Char) :
    remove4 (g ++ rest) = remove4 rest := by
  cases g with
  | nil => simp only [List.length_nil] at hlen; omega
  | cons a g1 =>
  cases g1 with
  | nil => simp only [List.length_cons, List.length_nil] at hlen; omega
  | cons b g2 =>
  cases g2 with
  | nil => simp only [List.length_cons, List.length_nil] at hlen; omega
  | cons c g3 =>
  cases g3 with
  | nil => simp only [List.length_cons, List.length_nil] at hlen; omega
  | cons d g4 =>
  cases g4 with
  | cons e g5 => simp only [List.length_cons] at hlen; omega
  | nil =>
      show (if a.isDigit && b.isDigit && c.isDigit && d.isDigit then
          remove4 rest
        else a :: remove4 (b :: c :: d :: rest)) = remove4 rest
      rw [hg a (by simp), hg b (by simp), hg c (by simp), hg d (by simp)]
      simp

/-- The group removal keeps a digit-free list intact. -/
theorem remove4_no_digit {l : List Char} (h : ∀ c ∈ l, c.isDigit = false) :
    remove4 l = l := by
  induction l with
  | nil => rfl
  | cons a t ih =>
      rw [remove4_nondigit_cons (h a (by simp)) t]
      rw [ih (fun c hc => h c (by simp [hc]))]

/-! Artifact-stripping lemmas. -/

/-- A digit-free list has an empty leading digit run. -/
theorem digitRun_eq_zero {l : List Char} (h : ∀ c ∈ l, c.isDigit = false) :
    digitRun l = 0 := by
  cases l with
  | nil => rfl
  | cons c t =>
      unfold digitRun
      rw [List.takeWhile_cons_of_neg (by simp [h c (by simp)])]
      rfl

/-- The artifact regex never matches an all-upper-case word, since it
requires at least one digit. -/
theorem stripArtifact_upper {l : List Char} (h : ∀ c ∈ l, c.isUpper = true) :
    stripArtifact l = l := by
  have hds : ∀ d ∈ l, d.isDigit = false := fun d hd => upper_not_digit (h d hd)
  cases l with
  | nil => rfl
  | cons c cs =>
      have hd2 : digitRun (c :: cs) = 0 := digitRun_eq_zero hds
      have hd1 : digitRun cs = 0 := digitRun_eq_zero (fun d hd => hds d (by simp [hd]))
      have hca : c.isAlpha = true := by
        unfold Char.isAlpha
        rw [h c (by simp)]
        rfl
      have hma : matchArtifact (c :: cs) = none := by
        show (if c.isAlpha = true then
            match matchArtifactD (c :: cs) 1 (digitRun cs) with
            | some n => some n
            | none => matchArtifactD (c :: cs) 0 (digitRun (c :: cs))
          else matchArtifactD (c :: cs) 0 (digitRun (c :: cs))) = none
        rw [hca, hd1, hd2]
        rfl
      unfold stripArtifact
      rw [hma]

/-! Decimal-rendering lemmas. -/

/-- A decimal digit character renders a value below ten. -/
theorem digitChar_isDigit {m : ℕ} (hm : m < 10) : (Nat.digitChar m).isDigit = true := by
  interval_cases m <;> decide

/-- A positive value below ten renders as a non-zero digit character. -/
theorem digitChar_ne_zero {m : ℕ} (h0 : 0 < m) (hm : m < 10) : Nat.digitChar m ≠ '0' := by
  interval_cases m <;> decide

/-- The decimal rendering is non-empty, all digits, and free of a leading
zero for positive inputs. -/
theorem natToStrAux_spec : ∀ (fuel n : ℕ), n < fuel →
    natToStrAux fuel n ≠ [] ∧ (∀ c ∈ natToStrAux fuel n, c.isDigit = true) ∧
    (0 < n → (natToStrAux fuel n).head? ≠ some '0') := by
  intro fuel
  induction fuel with
  | zero => intro n h; exact absurd h (by omega)
  | succ f ih =>
      intro n _
      by_cases h10 : n < 10
      · have he : natToStrAux (f + 1) n = [Nat.digitChar n] := by
          show (if n < 10 then [Nat.digitChar n]
            else natToStrAux f (n / 10) ++ [Nat.digitChar (n % 10)]) = _
          rw [if_pos h10]
        rw [he]
        refine ⟨by simp, ?_, ?_⟩
        · intro c hc
          rw [List.mem_singleton] at hc
          subst hc
          exact digitChar_isDigit h10
        · intro hn hc
          have hz : Nat.digitChar n = '0' := by simpa using hc
          exact digitChar_ne_zero hn h10 hz
      · have he : natToStrAux (f + 1) n =
            natToStrAux f (n / 10) ++ [Nat.digitChar (n % 10)] := by
          show (if n < 10 then [Nat.digitChar n]
            else natToStrAux f (n / 10) ++ [Nat.digitChar (n % 10)]) = _
          rw [if_neg h10]
        have hlt : n / 10 < f := by
          have := Nat.div_lt_self (show 0 < n by omega) (show 1 < 10 by omega)
          omega
        obtain ⟨hne, hdig, hhead⟩ := ih (n / 10) hlt
        rw [he]
        refine ⟨by simp, ?_, ?_⟩
        · intro c hc
          rw [List.mem_append] at hc
          cases hc with
          | inl hcl => exact hdig c hcl
          | inr hcr =>
              rw [List.mem_singleton] at hcr
              subst hcr
              exact digitChar_isDigit (Nat.mod_lt _ (by omega))
        · intro _ hc
          rw [List.head?_append_of_ne_nil _ hne] at hc
          have hpos : 0 < n / 10 := by
            have := Nat.le_div_iff_mul_le (show 0 < 10 by omega) |>.mpr
              (show 1 * 10 ≤ n by omega)
            omega
          exact hhead hpos hc

/-- `String(val)` of a positive integer: non-empty. -/
theorem natToStr_ne_nil (n : ℕ) : natToStr n ≠ [] :=
  (natToStrAux_spec (n + 1) n (by omega)).1

/-- `String(val)`: all characters are digits. -/
theorem natToStr_digits (n : ℕ) : ∀ c ∈ natToStr n, c.isDigit = true :=
  (natToStrAux_spec (n + 1) n (by omega)).2.1

/-- `String(val)` of a positive integer has no leading zero. -/
theorem natToStr_head (n : ℕ) (h : 0 < n) : (natToStr n).head? ≠ some '0' :=
  (natToStrAux_spec (n + 1) n (by omega)).2.2 h

/-- The unit pipeline on an all-digit field reduces to stripping leading
zeros. -/
theorem unitOf_digits {u : List Char} (hu : ∀ c ∈ u, c.isDigit = true) :
    unitOf u = u.dropWhile (fun c => c = '0') := by
  unfold unitOf
  have hdh : dropHash u = u := by
    cases u with
    | nil => rfl
    | cons c r =>
        show (if c = '#' then r else c :: r) = c :: r
        rw [if_neg (ne_of_pred Char.isDigit (hu c (by simp)) (by decide))]
  rw [hdh]
  apply List.filter_eq_self.mpr
  intro c hc
  have hcu : c ∈ u := (List.dropWhile_sublist _).subset hc
  rw [show c.isDigit = true from hu c hcu]
  simp

/-! Normalizing a documented-format raw address down to its collapsed
single-space form. -/

/-- Every suffix token is upper-case throughout. -/
theorem tokens_upper : ∀ t ∈ suffixTokens, ∀ c ∈ t.data, c.isUpper = true := by decide

/-- Every suffix token is non-empty. -/
theorem tokens_ne_nil : ∀ t ∈ suffixTokens, t.data ≠ [] := by decide

/-- Trimming and whitespace-collapsing a documented-format raw address
yields the five fields separated by single spaces. -/
theorem collapsed_format {p s name : List Char} {k : ℕ} {T : String} {u : List Char}
    (hp4 : p.length = 4) (hpd : ∀ c ∈ p, c.isDigit = true)
    (hs4 : s.length = 4) (hsd : ∀ c ∈ s, c.isDigit = true)
    (hud : ∀ c ∈ u, c.isDigit = true) (hune : u ≠ [])
    (hnne : name ≠ []) (hnu : ∀ c ∈ name, c.isUpper = true)
    (hk : 1 ≤ k) (hT : T ∈ suffixTokens) :
    jsTrim (collapseWs (jsTrim (docFormatRaw p s name k T u))) =
      p ++ (' ' :: (s ++ (' ' :: (name ++ (' ' :: (T.data ++ u)))))) := by
  have hpne : p ≠ [] := by intro h; rw [h] at hp4; simp at hp4
  have hsne : s ≠ [] := by intro h; rw [h] at hs4; simp at hs4
  have hTne : T.data ≠ [] := tokens_ne_nil T hT
  have hpw : ∀ c ∈ p, isWs c = false := fun c hc => digit_not_ws (hpd c hc)
  have hsw : ∀ c ∈ s, isWs c = false := fun c hc => digit_not_ws (hsd c hc)
  have huw : ∀ c ∈ u, isWs c = false := fun c hc => digit_not_ws (hud c hc)
  have hnw : ∀ c ∈ name, isWs c = false := fun c hc => upper_not_ws (hnu c hc)
  have hTw : ∀ c ∈ T.data, isWs c = false := fun c hc => upper_not_ws (tokens_upper T hT c hc)
  have hhead_p : ∀ (X : List Char) (c : Char), (p ++ X).head? = some c → isWs c = false := by
    intro X c hc
    rw [List.head?_append_of_ne_nil _ hpne] at hc
    cases p with
    | nil => exact absurd rfl hpne
    | cons a t =>
        have hca : c = a := by simpa using hc.symm
        subst hca
        exact hpw c (by simp)
  have hraw_head : ∀ c, (docFormatRaw p s name k T u).head? = some c → isWs c = false := by
    intro c hc
    exact hhead_p _ c hc
  have hflat : docFormatRaw p s name k T u =
      (p ++ ' ' :: (s ++ ' ' :: (name ++ (List.replicate k ' ' ++ T.data)))) ++ u := by
    unfold docFormatRaw
    simp [List.append_assoc]
  have hraw_last : ∀ c, (docFormatRaw p s name k T u).getLast? = some c → isWs c = false := by
    intro c hc
    rw [hflat, List.getLast?_append_of_ne_nil _ hune] at hc
    exact huw c (List.mem_of_getLast?_eq_some hc)
  rw [jsTrim_eq_self hraw_head hraw_last]
  unfold docFormatRaw collapseWs
  rw [collapseWsAux_false_append _ hpw, collapseWsAux_false_space,
    collapseWsAux_prefix_word true _ hsne hsw, collapseWsAux_false_space,
    collapseWsAux_prefix_word true _ hnne hnw]
  obtain ⟨k2, rfl⟩ : ∃ k2, k = k2 + 1 := ⟨k - 1, by omega⟩
  rw [List.replicate_succ, List.cons_append, collapseWsAux_false_space,
    collapseWsAux_true_spaces, collapseWsAux_prefix_word true _ hTne hTw,
    show collapseWsAux false u = u from by
      have h2 := collapseWsAux_false_append ([] : List Char) huw
      simpa [show collapseWsAux false [] = [] from rfl] using h2]
  apply jsTrim_eq_self
  · intro c hc
    exact hhead_p _ c hc
  · intro c hc
    rw [show p ++ (' ' :: (s ++ (' ' :: (name ++ (' ' :: (T.data ++ u)))))) =
        (p ++ (' ' :: (s ++ (' ' :: (name ++ (' ' :: T.data)))))) ++ u from by
      simp [List.append_assoc], List.getLast?_append_of_ne_nil _ hune] at hc
    exact huw c (List.mem_of_getLast?_eq_some hc)

/-! Locating the suffix token in the collapsed form. -/

/-- The head of a list is a member. -/
theorem mem_of_head?_eq_some {l : List Char} {c : Char} (h : l.head? = some c) : c ∈ l := by
  cases l with
  | nil => cases h
  | cons a t =>
      have ha : a = c := by simpa using h
      subst ha
      simp

/-- A suffix of an append is either a suffix of the right part or extends
it by a non-empty suffix of the left part. -/
theorem suffix_append_cases : ∀ (x : List Char) {y zs : List Char},
    List.IsSuffix zs (x ++ y) →
    List.IsSuffix zs y ∨ ∃ ws, ws ≠ [] ∧ List.IsSuffix ws x ∧ zs = ws ++ y := by
  intro x
  induction x with
  | nil => intro y zs h; exact Or.inl (by simpa using h)
  | cons a x ih =>
      intro y zs h
      rcases h with ⟨t, ht⟩
      cases t with
      | nil =>
          right
          refine ⟨a :: x, by simp, List.suffix_rfl, ?_⟩
          have hz : zs = a :: (x ++ y) := by simpa using ht
          simpa using hz
      | cons b t2 =>
          rw [List.cons_append, List.cons_append] at ht
          injection ht with h1 h2
          rcases ih ⟨t2, h2⟩ with hy | ⟨ws, hwne, hwsuf, heq⟩
          · exact Or.inl hy
          · exact Or.inr ⟨ws, hwne, hwsuf.trans (List.suffix_cons a x), heq⟩

/-- The suffix attempt fails on a space followed by a digit. -/
theorem trySuffix_none_space_digit {c : Char} (hc : c.isDigit = true) (X : List Char) :
    trySuffix (' ' :: c :: X) = none := by
  apply trySuffix_eq_none_of_findTok
  rw [List.dropWhile_cons_of_pos (by decide),
    List.dropWhile_cons_of_neg (by simp [digit_not_ws hc])]
  exact findTok_digit_head hc X

/-- The suffix attempt fails on a token-free street-name fragment followed
by a space. -/
theorem trySuffix_none_name_part {name : List Char} (hnotok : containsTok name = false)
    (hnu : ∀ c ∈ name, c.isUpper = true) {zs : List Char} (hne : zs ≠ [])
    (hzs : List.IsSuffix zs name) (rest : List Char) :
    trySuffix (zs ++ ' ' :: rest) = none := by
  apply trySuffix_eq_none_of_findTok
  cases zs with
  | nil => exact absurd rfl hne
  | cons z zt =>
      rw [List.cons_append,
        List.dropWhile_cons_of_neg (by simp [upper_not_ws (hnu z (hzs.subset (by simp)))])]
      exact findTok_name_part hnotok hzs rest

/-- On the collapsed documented form, the lazy scan splits exactly before
the suffix token: group one is `primary secondary name`, group three is the
unit field. -/
theorem suffixSplit_format {p s name : List Char} {T : String} {u : List Char}
    (hpd : ∀ c ∈ p, c.isDigit = true) (hpne : p ≠ [])
    (hsd : ∀ c ∈ s, c.isDigit = true) (hsne : s ≠ [])
    (hud : ∀ c ∈ u, c.isDigit = true)
    (hnne : name ≠ []) (hnu : ∀ c ∈ name, c.isUpper = true)
    (hnotok : containsTok name = false)
    (hT : T ∈ suffixTokens) (hTne : T ≠ "AVE") :
    suffixSplitGo [] (p ++ (' ' :: (s ++ (' ' :: (name ++ (' ' :: (T.data ++ u))))))) =
      some (p ++ (' ' :: (s ++ (' ' :: name))), T, u) := by
  have hhit : trySuffix (' ' :: (T.data ++ u)) = some (T, u) :=
    trySuffix_hit hT hTne u (dropWhile_ws_eq_self
      (fun c hc => digit_not_ws (hud c (mem_of_head?_eq_some hc))))
  have hshape : p ++ (' ' :: (s ++ (' ' :: (name ++ (' ' :: (T.data ++ u)))))) =
      (p ++ (' ' :: (s ++ (' ' :: name)))) ++ (' ' :: (T.data ++ u)) := by
    simp [List.append_assoc]
  have hmiss : ∀ zs, zs ≠ [] →
      List.IsSuffix zs (p ++ (' ' :: (s ++ (' ' :: name)))) →
      zs ≠ p ++ (' ' :: (s ++ (' ' :: name))) →
      trySuffix (zs ++ (' ' :: (T.data ++ u))) = none := by
    intro zs hne hsuf _
    rcases suffix_append_cases _ hsuf with hzB | ⟨ws, hwne, hwp, rfl⟩
    · rcases List.suffix_cons_iff.mp hzB with rfl | hzB2
      · obtain ⟨c, s2, rfl⟩ : ∃ c s2, s = c :: s2 := by
          cases s with
          | nil => exact absurd rfl hsne
          | cons c s2 => exact ⟨c, s2, rfl⟩
        rw [show (' ' :: ((c :: s2) ++ (' ' :: name))) ++ (' ' :: (T.data ++ u)) =
            ' ' :: c :: (s2 ++ (' ' :: name) ++ (' ' :: (T.data ++ u))) from by simp]
        exact trySuffix_none_space_digit (hsd c (by simp)) _
      · rcases suffix_append_cases _ hzB2 with hzn | ⟨ws, hwne, hws, rfl⟩
        · rcases List.suffix_cons_iff.mp hzn with rfl | hzn2
          · apply trySuffix_eq_none_of_findTok
            obtain ⟨n0, n2, rfl⟩ : ∃ n0 n2, name = n0 :: n2 := by
              cases name with
              | nil => exact absurd rfl hnne
              | cons n0 n2 => exact ⟨n0, n2, rfl⟩
            rw [show (' ' :: (n0 :: n2)) ++ (' ' :: (T.data ++ u)) =
                ' ' :: ((n0 :: n2) ++ (' ' :: (T.data ++ u))) from rfl,
              List.dropWhile_cons_of_pos (by decide), List.cons_append,
              List.dropWhile_cons_of_neg (by simp [upper_not_ws (hnu n0 (by simp))])]
            exact findTok_name_part hnotok List.suffix_rfl (T.data ++ u)
          · exact trySuffix_none_name_part hnotok hnu hne hzn2 (T.data ++ u)
        · obtain ⟨c, ws2, rfl⟩ : ∃ c ws2, ws = c :: ws2 := by
            cases ws with
            | nil => exact absurd rfl hwne
            | cons c ws2 => exact ⟨c, ws2, rfl⟩
          have hcd : c.isDigit = true := hsd c (hws.subset (by simp))
          rw [show ((c :: ws2) ++ (' ' :: name)) ++ (' ' :: (T.data ++ u)) =
              c :: (ws2 ++ (' ' :: name) ++ (' ' :: (T.data ++ u))) from by simp]
          exact trySuffix_none_digit hcd _
    · obtain ⟨c, ws2, rfl⟩ : ∃ c ws2, ws = c :: ws2 := by
        cases ws with
        | nil => exact absurd rfl hwne
        | cons c ws2 => exact ⟨c, ws2, rfl⟩
      have hcd : c.isDigit = true := hpd c (hwp.subset (by simp))
      rw [show ((c :: ws2) ++ (' ' :: (s ++ (' ' :: name)))) ++ (' ' :: (T.data ++ u)) =
          c :: (ws2 ++ (' ' :: (s ++ (' ' :: name))) ++ (' ' :: (T.data ++ u))) from by simp]
      exact trySuffix_none_digit hcd _
  rw [hshape]
  have hres := suffixSplitGo_to_hit hhit (p ++ (' ' :: (s ++ (' ' :: name)))) []
    (by simp) hmiss
  simpa using hres

/-! The downstream fields computed from group one. -/

/-- The four-digit scan over group one finds exactly the primary and
secondary number fields. -/
theorem scan4_format {p s name : List Char} (hp4 : p.length = 4)
    (hpd : ∀ c ∈ p, c.isDigit = true) (hs4 : s.length = 4)
    (hsd : ∀ c ∈ s, c.isDigit = true) (hnu : ∀ c ∈ name, c.isUpper = true) :
    scan4 (p ++ (' ' :: (s ++ (' ' :: name)))) = [p, s] := by
  rw [scan4_group hp4 hpd, scan4_nondigit_cons (by decide), scan4_group hs4 hsd,
    scan4_nondigit_cons (by decide),
    scan4_no_digit (fun c hc => upper_not_digit (hnu c hc))]

/-- The street number is the primary field when positive, otherwise the
secondary field, rendered without leading zeros. -/
theorem streetNumOf_format {p s name : List Char} (hp4 : p.length = 4)
    (hpd : ∀ c ∈ p, c.isDigit = true) (hs4 : s.length = 4)
    (hsd : ∀ c ∈ s, c.isDigit = true) (hnu : ∀ c ∈ name, c.isUpper = true)
    (hpos : 0 < digitsVal p ∨ 0 < digitsVal s) :
    streetNumOf (p ++ (' ' :: (s ++ (' ' :: name)))) =
      natToStr (if 0 < digitsVal p then digitsVal p else digitsVal s) := by
  unfold streetNumOf
  rw [scan4_format hp4 hpd hs4 hsd hnu]
  by_cases h1 : 0 < digitsVal p
  · rw [List.find?_cons_of_pos _ (by simpa using h1), if_pos h1]
  · rw [List.find?_cons_of_neg _ (by simpa using h1),
      List.find?_cons_of_pos _ (by simpa using hpos.resolve_left h1), if_neg h1]

/-- The street-name pipeline recovers exactly the name field. -/
theorem streetName_format {p s name : List Char} (hp4 : p.length = 4)
    (hpd : ∀ c ∈ p, c.isDigit = true) (hs4 : s.length = 4)
    (hsd : ∀ c ∈ s, c.isDigit = true) (hnne : name ≠ [])
    (hnu : ∀ c ∈ name, c.isUpper = true) :
    jsTrim (stripArtifact (jsTrim (remove4 (p ++ (' ' :: (s ++ (' ' :: name))))))) =
      name := by
  have hnd : ∀ c ∈ name, c.isDigit = false := fun c hc => upper_not_digit (hnu c hc)
  have hnw : ∀ c ∈ name, isWs c = false := fun c hc => upper_not_ws (hnu c hc)
  have h1 : remove4 (p ++ (' ' :: (s ++ (' ' :: name)))) = ' ' :: ' ' :: name := by
    rw [remove4_group hp4 hpd, remove4_nondigit_cons (by decide),
      remove4_group hs4 hsd, remove4_nondigit_cons (by decide), remove4_no_digit hnd]
  rw [h1]
  have h2 : jsTrim (' ' :: ' ' :: name) = name := by
    unfold jsTrim jsTrimLeft
    rw [List.dropWhile_cons_of_pos (by decide), List.dropWhile_cons_of_pos (by decide),
      dropWhile_ws_eq_self (fun c hc => hnw c (mem_of_head?_eq_some hc))]
    exact jsTrimRight_eq_self (fun c hc => hnw c (List.mem_of_getLast?_eq_some hc))
  rw [h2, stripArtifact_upper hnu]
  exact jsTrim_eq_self (fun c hc => hnw c (mem_of_head?_eq_some hc))
    (fun c hc => hnw c (List.mem_of_getLast?_eq_some hc))

/-- Re-collapsing the joined `number name suffix` string changes nothing:
it already has single spaces. -/
theorem collapse_joined {n name Td : List Char} (hn : ∀ c ∈ n, isWs c = false)
    (hname : ∀ c ∈ name, isWs c = false) (hnne : name ≠ [])
    (hTd : ∀ c ∈ Td, isWs c = false) (hTne : Td ≠ []) :
    collapseWs (n ++ ' ' :: (name ++ ' ' :: Td)) = n ++ ' ' :: (name ++ ' ' :: Td) := by
  unfold collapseWs
  rw [collapseWsAux_false_append _ hn, collapseWsAux_false_space,
    collapseWsAux_prefix_word true _ hnne hname, collapseWsAux_false_space,
    show collapseWsAux true Td = Td from by
      have h2 := collapseWsAux_prefix_word true [] hTne hTd
      simpa [show collapseWsAux false [] = [] from rfl] using h2]

/-- The full normalizer on a documented-format raw address: the chosen
street number, the name, the suffix token, and the de-zeroed unit if any. -/
theorem parseAddressL_format {p s name : List Char} {k : ℕ} {T : String} {u : List Char}
    (hp4 : p.length = 4) (hpd : ∀ c ∈ p, c.isDigit = true)
    (hs4 : s.length = 4) (hsd : ∀ c ∈ s, c.isDigit = true)
    (hud : ∀ c ∈ u, c.isDigit = true) (hune : u ≠ [])
    (hnne : name ≠ []) (hnu : ∀ c ∈ name, c.isUpper = true)
    (hnotok : containsTok name = false) (hk : 1 ≤ k)
    (hT : T ∈ suffixTokens) (hTne : T ≠ "AVE")
    (hpos : 0 < digitsVal p ∨ 0 < digitsVal s) :
    parseAddressL (docFormatRaw p s name k T u) =
      (if u.dropWhile (fun c => c = '0') = [] then
        natToStr (if 0 < digitsVal p then digitsVal p else digitsVal s) ++
          ' ' :: (name ++ ' ' :: T.data)
      else
        (natToStr (if 0 < digitsVal p then digitsVal p else digitsVal s) ++
          ' ' :: (name ++ ' ' :: T.data)) ++
          ' ' :: '#' :: u.dropWhile (fun c => c = '0')) := by
  have hpne : p ≠ [] := by intro h; rw [h] at hp4; simp at hp4
  have hsne : s ≠ [] := by intro h; rw [h] at hs4; simp at hs4
  have hnw : ∀ c ∈ name, isWs c = false := fun c hc => upper_not_ws (hnu c hc)
  have hTw : ∀ c ∈ T.data, isWs c = false :=
    fun c hc => upper_not_ws (tokens_upper T hT c hc)
  unfold parseAddressL
  dsimp only
  rw [collapsed_format hp4 hpd hs4 hsd hud hune hnne hnu hk hT,
    suffixSplit_format hpd hpne hsd hsne hud hnne hnu hnotok hT hTne]
  dsimp only
  rw [streetNumOf_format hp4 hpd hs4 hsd hnu hpos,
    streetName_format hp4 hpd hs4 hsd hnne hnu, unitOf_digits hud]
  set v := if 0 < digitsVal p then digitsVal p else digitsVal s with hv
  have hparts : List.filter (fun q => q ≠ []) [natToStr v, name, T.data] =
      [natToStr v, name, T.data] := by
    apply List.filter_eq_self.mpr
    intro a ha
    simp only [List.mem_cons, List.not_mem_nil, or_false] at ha
    rcases ha with rfl | rfl | rfl
    · simpa using natToStr_ne_nil v
    · simpa using hnne
    · simpa using tokens_ne_nil T hT
  rw [hparts,
    show joinSpace [natToStr v, name, T.data] =
      natToStr v ++ ' ' :: (name ++ ' ' :: T.data) from rfl,
    collapse_joined (fun c hc => digit_not_ws (natToStr_digits v c hc)) hnw hnne hTw
      (tokens_ne_nil T hT)]
  by_cases hu0 : u.dropWhile (fun c => c = '0') = []
  · rw [if_neg (by simp [hu0]), if_pos hu0]
  · rw [if_pos hu0, if_neg hu0]

/-! The claimed output shape holds for the normalized result. -/

/-- One unfolding step of the space splitter. -/
theorem splitSp_cons (c : Char) (rest : List Char) :
    splitSp (c :: rest) = match splitSp rest with
      | [] => [[c]]
      | w :: ws => if c = ' ' then [] :: w :: ws else (c :: w) :: ws := rfl

/-- The space splitter never returns an empty word list. -/
theorem splitSp_ne_nil : ∀ (l : List Char), splitSp l ≠ [] := by
  intro l
  induction l with
  | nil => simp [splitSp]
  | cons c rest ih =>
      rw [splitSp_cons]
      cases h : splitSp rest with
      | nil => simp
      | cons w ws => by_cases hc : c = ' ' <;> simp [hc]

/-- The space splitter peels off a space-free word before a space. -/
theorem splitSp_word_sep : ∀ (w : List Char), (∀ c ∈ w, ¬ c = ' ') → ∀ (l : List Char),
    splitSp (w ++ ' ' :: l) = w :: splitSp l := by
  intro w
  induction w with
  | nil =>
      intro _ l
      rw [List.nil_append, splitSp_cons]
      cases h : splitSp l with
      | nil => exact absurd h (splitSp_ne_nil l)
      | cons w2 ws2 => simp
  | cons c w ih =>
      intro hw l
      rw [List.cons_append, splitSp_cons, ih (fun d hd => hw d (by simp [hd])) l]
      simp [hw c (by simp)]

/-- The space splitter keeps a space-free word whole. -/
theorem splitSp_word : ∀ (w : List Char), (∀ c ∈ w, ¬ c = ' ') → splitSp w = [w] := by
  intro w
  induction w with
  | nil => intro _; rfl
  | cons c w ih =>
      intro hw
      rw [splitSp_cons, ih (fun d hd => hw d (by simp [hd]))]
      simp [hw c (by simp)]

/-- Prepending a space-free word preserves the no-double-space property. -/
theorem noDoubleSpace_word : ∀ (w l : List Char), (∀ c ∈ w, ¬ c = ' ') →
    noDoubleSpace l = true → noDoubleSpace (w ++ l) = true := by
  intro w
  induction w with
  | nil => intro l _ hl; exact hl
  | cons c w ih =>
      intro l hw hl
      have hrest := ih l (fun d hd => hw d (by simp [hd])) hl
      rw [List.cons_append]
      cases hwl : w ++ l with
      | nil => rfl
      | cons b rest2 =>
          rw [hwl] at hrest
          show (!(decide (c = ' ') && decide (b = ' ')) && noDoubleSpace (b :: rest2)) = true
          rw [hrest]
          simp [hw c (by simp)]

/-- Prepending a single space before a non-space character preserves the
no-double-space property. -/
theorem noDoubleSpace_space {l : List Char} (hl : noDoubleSpace l = true)
    (hh : ∀ c, l.head? = some c → ¬ c = ' ') : noDoubleSpace (' ' :: l) = true := by
  cases l with
  | nil => rfl
  | cons b rest =>
      show (!(decide ((' ' : Char) = ' ') && decide (b = ' ')) &&
        noDoubleSpace (b :: rest)) = true
      rw [hl]
      simp [hh b rfl]

/-- The head of a `dropWhile` result fails the predicate. -/
theorem head_dropWhile_not {p : Char → Bool} : ∀ (l : List Char) {c : Char},
    (l.dropWhile p).head? = some c → p c = false := by
  intro l
  induction l with
  | nil => intro c h; cases h
  | cons a t ih =>
      intro c h
      by_cases hp : p a = true
      · rw [List.dropWhile_cons_of_pos hp] at h
        exact ih h
      · rw [List.dropWhile_cons_of_neg hp] at h
        have ha : a = c := by simpa using h
        subst ha
        simpa using hp

/-- Word lists without a trailing hash word carry no unit. -/
theorem splitUnit_no_unit {num n1 Td : List Char} (hTd : ¬ Td.head? = some '#') :
    splitUnit [num, n1, Td] = ([num, n1, Td], none) := by
  show (if Td.head? = some '#' then ([num, n1, Td].dropLast, some (Td.drop 1))
    else ([num, n1, Td], none)) = ([num, n1, Td], none)
  rw [if_neg hTd]

/-- A trailing hash word is detached as the unit. -/
theorem splitUnit_with_unit {num n1 Td unit : List Char} :
    splitUnit [num, n1, Td, '#' :: unit] = ([num, n1, Td], some unit) := by
  show (if ('#' :: unit).head? = some '#' then
      ([num, n1, Td, '#' :: unit].dropLast, some (('#' :: unit).drop 1))
    else ([num, n1, Td, '#' :: unit], none)) = ([num, n1, Td], some unit)
  rw [if_pos (show ('#' :: unit).head? = some '#' from rfl)]
  rfl

/-- A non-empty all-digit word without a leading zero is a well-formed
street number. -/
theorem numOk_true {num : List Char} (hne : num ≠ []) (hd : ∀ c ∈ num, c.isDigit = true)
    (h0 : ¬ num.head? = some '0') : numOk num = true := by
  unfold numOk
  cases num with
  | nil => exact absurd rfl hne
  | cons a t =>
      have h0a : ¬ a = '0' := fun ha => h0 (by simp [ha])
      simp only [List.isEmpty_cons, Bool.not_false, Bool.true_and, Bool.and_eq_true]
      refine ⟨List.all_eq_true.mpr hd, by simp [h0a]⟩

/-- A non-empty name word followed by a suffix token is a well-formed word
tail. -/
theorem wordsOk_pair {n1 : List Char} {T : String} (hn1 : n1 ≠ []) (hTne : T.data ≠ [])
    (hT : T ∈ suffixTokens) : wordsOk [n1, T.data] = true := by
  unfold wordsOk
  rw [show ([n1, T.data].getLast?) = some T.data from rfl]
  simp only [Bool.and_eq_true, List.all_eq_true, List.any_eq_true]
  refine ⟨⟨by simp, ?_⟩, ⟨T, hT, by simp⟩⟩
  intro wd hwd
  simp only [List.mem_cons, List.not_mem_nil, or_false] at hwd
  rcases hwd with rfl | rfl
  · simpa using hn1
  · simpa using hTne

/-- A non-empty all-digit unit without a leading zero is a well-formed
unit. -/
theorem unitOk_some {uu : List Char} (hne : uu ≠ []) (hd : ∀ c ∈ uu, c.isDigit = true)
    (h0 : ¬ uu.head? = some '0') : unitOk (some uu) = true := by
  show (!uu.isEmpty && uu.all Char.isAlphanum && !(uu.head? = some '0')) = true
  cases uu with
  | nil => exact absurd rfl hne
  | cons a t =>
      have h0a : ¬ a = '0' := fun ha => h0 (by simp [ha])
      simp only [List.isEmpty_cons, Bool.not_false, Bool.true_and, Bool.and_eq_true]
      refine ⟨List.all_eq_true.mpr ?_, by simp [h0a]⟩
      intro c hc
      unfold Char.isAlphanum
      rw [hd c hc]
      simp

/-- The suffix token of the output does not start with a hash. -/
theorem token_head_not_hash {T : String} (hT : T ∈ suffixTokens) :
    ¬ T.data.head? = some '#' := by
  intro hh
  have hm := mem_of_head?_eq_some hh
  have hup := tokens_upper T hT '#' hm
  exact absurd hup (by decide)

/-- A `number name suffix` output satisfies the claimed shape. -/
theorem claimShape_no_unit {num n1 : List Char} {T : String}
    (hnum : numOk num = true) (hnum_sp : ∀ c ∈ num, ¬ c = ' ')
    (hn1ne : n1 ≠ []) (hn1u : ∀ c ∈ n1, c.isUpper = true)
    (hT : T ∈ suffixTokens) :
    claimShape (String.mk (num ++ ' ' :: (n1 ++ ' ' :: T.data))) = true := by
  have hn1sp : ∀ c ∈ n1, ¬ c = ' ' :=
    fun c hc => ne_of_pred Char.isUpper (hn1u c hc) (by decide)
  have hTsp : ∀ c ∈ T.data, ¬ c = ' ' :=
    fun c hc => ne_of_pred Char.isUpper (tokens_upper T hT c hc) (by decide)
  have h3 : noDoubleSpace T.data = true := by
    simpa using noDoubleSpace_word T.data [] hTsp rfl
  have h2 : noDoubleSpace (' ' :: T.data) = true :=
    noDoubleSpace_space h3 (fun c hc => hTsp c (mem_of_head?_eq_some hc))
  have h1b : noDoubleSpace (n1 ++ ' ' :: T.data) = true :=
    noDoubleSpace_word n1 _ hn1sp h2
  have h1a : noDoubleSpace (' ' :: (n1 ++ ' ' :: T.data)) = true :=
    noDoubleSpace_space h1b (fun c hc => by
      rw [List.head?_append_of_ne_nil _ hn1ne] at hc
      exact hn1sp c (mem_of_head?_eq_some hc))
  have hnds : noDoubleSpace (num ++ ' ' :: (n1 ++ ' ' :: T.data)) = true :=
    noDoubleSpace_word num _ hnum_sp h1a
  unfold claimShape
  dsimp only
  rw [splitSp_word_sep num hnum_sp _, splitSp_word_sep n1 hn1sp _,
    splitSp_word T.data hTsp, splitUnit_no_unit (token_head_not_hash hT)]
  dsimp only
  rw [hnum, wordsOk_pair hn1ne (tokens_ne_nil T hT) hT, hnds]
  rfl

/-- A `number name suffix #unit` output satisfies the claimed shape. -/
theorem claimShape_with_unit {num n1 : List Char} {T : String} {unit : List Char}
    (hnum : numOk num = true) (hnum_sp : ∀ c ∈ num, ¬ c = ' ')
    (hn1ne : n1 ≠ []) (hn1u : ∀ c ∈ n1, c.isUpper = true)
    (hT : T ∈ suffixTokens) (hune : unit ≠ [])
    (hud : ∀ c ∈ unit, c.isDigit = true) (hu0 : ¬ unit.head? = some '0') :
    claimShape (String.mk
      ((num ++ ' ' :: (n1 ++ ' ' :: T.data)) ++ ' ' :: '#' :: unit)) = true := by
  have hn1sp : ∀ c ∈ n1, ¬ c = ' ' :=
    fun c hc => ne_of_pred Char.isUpper (hn1u c hc) (by decide)
  have hTsp : ∀ c ∈ T.data, ¬ c = ' ' :=
    fun c hc => ne_of_pred Char.isUpper (tokens_upper T hT c hc) (by decide)
  have husp : ∀ c ∈ ('#' :: unit), ¬ c = ' ' := by
    intro c hc
    simp only [List.mem_cons] at hc
    rcases hc with rfl | hc
    · decide
    · exact ne_of_pred Char.isDigit (hud c hc) (by decide)
  have hshape : (num ++ ' ' :: (n1 ++ ' ' :: T.data)) ++ ' ' :: '#' :: unit =
      num ++ ' ' :: (n1 ++ ' ' :: (T.data ++ ' ' :: ('#' :: unit))) := by
    simp [List.append_assoc]
  have h4 : noDoubleSpace ('#' :: unit) = true := by
    simpa using noDoubleSpace_word ('#' :: unit) [] husp rfl
  have h3b : noDoubleSpace (' ' :: ('#' :: unit)) = true :=
    noDoubleSpace_space h4 (fun c hc => husp c (mem_of_head?_eq_some hc))
  have h3 : noDoubleSpace (T.data ++ ' ' :: ('#' :: unit)) = true :=
    noDoubleSpace_word T.data _ hTsp h3b
  have h2 : noDoubleSpace (' ' :: (T.data ++ ' ' :: ('#' :: unit))) = true :=
    noDoubleSpace_space h3 (fun c hc => by
      rw [List.head?_append_of_ne_nil _ (tokens_ne_nil T hT)] at hc
      exact hTsp c (mem_of_head?_eq_some hc))
  have h1b : noDoubleSpace (n1 ++ ' ' :: (T.data ++ ' ' :: ('#' :: unit))) = true :=
    noDoubleSpace_word n1 _ hn1sp h2
  have h1a : noDoubleSpace
      (' ' :: (n1 ++ ' ' :: (T.data ++ ' ' :: ('#' :: unit)))) = true :=
    noDoubleSpace_space h1b (fun c hc => by
      rw [List.head?_append_of_ne_nil _ hn1ne] at hc
      exact hn1sp c (mem_of_head?_eq_some hc))
  have hnds : noDoubleSpace
      (num ++ ' ' :: (n1 ++ ' ' :: (T.data ++ ' ' :: ('#' :: unit)))) = true :=
    noDoubleSpace_word num _ hnum_sp h1a
  unfold claimShape
  dsimp only
  rw [hshape, splitSp_word_sep num hnum_sp _, splitSp_word_sep n1 hn1sp _,
    splitSp_word_sep T.data hTsp _, splitSp_word ('#' :: unit) husp,
    splitUnit_with_unit]
  dsimp only
  rw [hnum, wordsOk_pair hn1ne (tokens_ne_nil T hT) hT, unitOk_some hune hud hu0, hnds]
  rfl

set_option maxRecDepth 40000 in
/-- C4 counterexample: the raw record address `0000 1234 STEINER … ST0000`
is in the documented positional format, yet the normalizer emits
`1234 ST #EINERST0000` — the lazy suffix regex matches the `ST` embedded in
`STEINER`, so the output is not of the claimed
`<number> <name> <suffix>[ #<unit>]` shape. -/
theorem C4_counterexample :
    docFormatOk "0000".data "1234".data "STEINER".data 13 "ST" "0000".data = true ∧
    parseAddress (String.mk (docFormatRaw "0000".data "1234".data "STEINER".data
      13 "ST" "0000".data)) = "1234 ST #EINERST0000" ∧
    claimShape "1234 ST #EINERST0000" = false := by
  refine ⟨by decide, by decide, by decide⟩

set_option maxRecDepth 40000 in
/-- C4 (amended): for every raw address in the documented positional format
whose street name is a single upper-case word free of embedded street-suffix
tokens, whose suffix token is not the shadowed `AVE`, and whose primary or
secondary number is positive, the normalizer returns exactly
`<number> <name> <suffix>`, followed by ` #<unit>` when the zero-stripped
unit field is non-empty; the result satisfies the claimed canonical shape
(single spaces, no leading zeros), and the two documented examples
normalize as stated. -/
theorem C4_normalizer (p s name : List Char) (k : ℕ) (T : String) (u : List Char)
    (hok : docFormatOk p s name k T u = true)
    (hnotok : containsTok name = false) (hTne : T ≠ "AVE")
    (hpos : 0 < digitsVal p ∨ 0 < digitsVal s) :
    parseAddress (String.mk (docFormatRaw p s name k T u)) =
      String.mk (if u.dropWhile (fun c => c = '0') = [] then
          natToStr (if 0 < digitsVal p then digitsVal p else digitsVal s) ++
            ' ' :: (name ++ ' ' :: T.data)
        else
          (natToStr (if 0 < digitsVal p then digitsVal p else digitsVal s) ++
            ' ' :: (name ++ ' ' :: T.data)) ++
            ' ' :: '#' :: u.dropWhile (fun c => c = '0')) ∧
    claimShape (parseAddress (String.mk (docFormatRaw p s name k T u))) = true ∧
    parseAddress "0000 1625 PACIFIC             AV0007" = "1625 PACIFIC AV #7" ∧
    parseAddress "0000 0990 GREEN                ST0000" = "990 GREEN ST" := by
  simp only [docFormatOk, Bool.and_eq_true, decide_eq_true_eq, List.all_eq_true,
    Bool.not_eq_true'] at hok
  obtain ⟨⟨⟨⟨⟨⟨⟨⟨⟨hp4, hpd⟩, hs4⟩, hsd⟩, hu4⟩, hud⟩, h7⟩, h8⟩, h9⟩, h10⟩ := hok
  have hnne : name ≠ [] := by intro h; rw [h] at h7; simp at h7
  have hune : u ≠ [] := by intro h; rw [h] at hu4; simp at hu4
  have hmain := parseAddressL_format hp4 hpd hs4 hsd hud hune hnne h8 hnotok h9 h10
    hTne hpos
  have hpa : parseAddress (String.mk (docFormatRaw p s name k T u)) =
      String.mk (parseAddressL (docFormatRaw p s name k T u)) := rfl
  refine ⟨?_, ?_, by decide, by decide⟩
  · rw [hpa, hmain]
  · rw [hpa, hmain]
    have hvpos : 0 < (if 0 < digitsVal p then digitsVal p else digitsVal s) := by
      by_cases hq : 0 < digitsVal p
      · rw [if_pos hq]; exact hq
      · rw [if_neg hq]; exact hpos.resolve_left hq
    have hnum : numOk (natToStr
        (if 0 < digitsVal p then digitsVal p else digitsVal s)) = true :=
      numOk_true (natToStr_ne_nil _) (natToStr_digits _) (natToStr_head _ hvpos)
    have hnum_sp : ∀ c ∈ natToStr
        (if 0 < digitsVal p then digitsVal p else digitsVal s), ¬ c = ' ' :=
      fun c hc => ne_of_pred Char.isDigit (natToStr_digits _ c hc) (by decide)
    by_cases hu0 : u.dropWhile (fun c => c = '0') = []
    · rw [if_pos hu0]
      exact claimShape_no_unit hnum hnum_sp hnne h8 h10
    · rw [if_neg hu0]
      exact claimShape_with_unit hnum hnum_sp hnne h8 h10 hu0
        (fun c hc => hud c ((List.dropWhile_sublist _).subset hc))
        (by
          intro hh
          have hx := head_dropWhile_not u hh
          simp at hx)

set_option maxRecDepth 40000 in
/-- Witness for C4 (amended): the documented `PACIFIC AV` example satisfies
every hypothesis and normalizes to `1625 PACIFIC AV #7`. -/
theorem C4_normalizer_witness :
    docFormatOk "0000".data "1625".data "PACIFIC".data 13 "AV" "0007".data = true ∧
    containsTok "PACIFIC".data = false ∧
    parseAddress (String.mk (docFormatRaw "0000".data "1625".data "PACIFIC".data
      13 "AV" "0007".data)) = "1625 PACIFIC AV #7" := by
  refine ⟨by decide, by decide, ?_⟩
  have h := C4_normalizer "0000".data "1625".data "PACIFIC".data 13 "AV" "0007".data
    (by decide) (by decide) (by decide) (Or.inr (by decide))
  rw [h.1]
  decide

end OnlyAppeals
